import Mathlib

/-!
# Verification of the biophony-ai chunked index computation and storage engine

This file gives a shallow embedding, in Lean 4, of the core data model and
operations of the acoustic-indices processing engine (the `indices` module and
the sharded processing driver), and proves or refutes the frozen list of
behavioural claims about it.

Conventions of the embedding:
* Python floats are modelled as rationals (`ℚ`); `int(...)` truncation toward
  zero is `pyInt`.
* SQLite tables are modelled as lists of row structures, in rowid order;
  `INSERT OR REPLACE` deletes the rows that share the conflicting unique key
  and appends the new row; `INSERT OR IGNORE` appends only when no row shares
  the key; an unordered `SELECT ... fetchone()` returns the first row in table
  order; `ORDER BY` is modelled by `List.insertionSort` with the corresponding
  lexicographic comparator.
* Python dictionaries are association lists with insert-or-overwrite-in-place
  update (`dictSet`), preserving insertion order, looked up by first match
  (keys are unique by construction).
* Python exceptions are `Except String`.
* String primitives used by the code (`os.path.basename`, `str.replace`,
  substring membership via `in`) are implemented on character lists so that
  all definitions evaluate by `decide`.
-/

/-! ## Basic Python-style utilities -/

/-- Truncation of a rational toward zero, the behaviour of Python `int(float)`. -/
def pyInt (q : ℚ) : ℤ := q.num.tdiv q.den

/-- Substring test on character lists: some suffix of `l` starts with `pat`.
Implements Python `pat in s`. -/
def infixChars (pat : List Char) : List Char → Bool
  | [] => pat.isEmpty
  | c :: l => pat.isPrefixOf (c :: l) || infixChars pat l

/-- Python `pat in s` for strings. -/
def containsSub (s pat : String) : Bool := infixChars pat.toList s.toList

/-- Characters after the last slash: `os.path.basename`. -/
def basenameChars (l : List Char) : List Char :=
  l.foldl (fun acc c => if c = '/' then [] else acc ++ [c]) []

/-- `os.path.basename` on strings. -/
def basename (s : String) : String := String.mk (basenameChars s.toList)

/-- Replace every occurrence of `pat` by `rep`, the behaviour of Python
`str.replace` for a non-empty pattern.  Fuel-based structural recursion (each
step consumes at least one character, so fuel `l.length` suffices). -/
def replaceCharsAux (pat rep : List Char) : ℕ → List Char → List Char
  | _, [] => []
  | 0, l => l
  | fuel + 1, c :: l =>
    if pat ≠ [] ∧ pat.isPrefixOf (c :: l) then
      rep ++ replaceCharsAux pat rep fuel ((c :: l).drop pat.length)
    else
      c :: replaceCharsAux pat rep fuel l

/-- Python `str.replace` for strings. -/
def strReplace (s pat rep : String) : String :=
  String.mk (replaceCharsAux pat.toList rep.toList s.toList.length s.toList)

/-- Python dict assignment `d[k] = v`: overwrite in place if the key is
present, otherwise append (insertion order preserved). -/
def dictSet {α : Type} (d : List (String × α)) (k : String) (v : α) :
    List (String × α) :=
  if d.any (fun p => p.1 = k) then
    d.map (fun p => if p.1 = k then (k, v) else p)
  else
    d ++ [(k, v)]

/-- Python dict lookup `d.get(k)`; keys are unique, so first match suffices. -/
def dictGet? {α : Type} (d : List (String × α)) (k : String) : Option α :=
  (d.find? (fun p => p.1 = k)).map (fun p => p.2)

/-- Python dict lookup with default, `d.get(k, dflt)`. -/
def dictGetD {α : Type} (d : List (String × α)) (k : String) (dflt : α) : α :=
  (dictGet? d k).getD dflt

/-! ## Named-index registry (`SpectralIndicesProcessor._generate_database_name`) -/

/-- The frequency-band-dependent processor identifiers
(spectral_processor.py line 159). -/
def freqDependentProcessors : List String := ["bioacoustics_index", "soundscape_index"]

/-- `params.get('freq_min', params.get('bioacoustic_freq_min', 0))`
(spectral_processor.py line 162). -/
def resolvedFreqMin (params : List (String × ℤ)) : ℤ :=
  dictGetD params "freq_min" (dictGetD params "bioacoustic_freq_min" 0)

/-- `params.get('freq_max', params.get('bioacoustic_freq_max', 0))`
(spectral_processor.py line 163). -/
def resolvedFreqMax (params : List (String × ℤ)) : ℤ :=
  dictGetD params "freq_max" (dictGetD params "bioacoustic_freq_max" 0)

/-- The band pattern `f"{int(freq_min)}-{int(freq_max)}"`. -/
def freqPattern (fmin fmax : ℤ) : String := toString fmin ++ "-" ++ toString fmax

/-- Translated from `SpectralIndicesProcessor._generate_database_name`
(spectral_processor.py lines 146-176).  Note the Python truthiness test
`if freq_min and freq_max:` is `fmin ≠ 0 ∧ fmax ≠ 0`. -/
def generateDatabaseName (cosmetic processor : String)
    (params : List (String × ℤ)) : String :=
  if processor ∈ freqDependentProcessors then
    let fmin := resolvedFreqMin params
    let fmax := resolvedFreqMax params
    if fmin ≠ 0 ∧ fmax ≠ 0 then
      let pat := freqPattern fmin fmax
      if containsSub cosmetic pat then cosmetic
      else cosmetic ++ "_" ++ pat
    else cosmetic
  else cosmetic

/-- Modelled from the spec (section 4.3 wording), for comparison with the
code: the persistence name is `f"{cosmetic}_{int(fmin)}-{int(fmax)}"` unless
the cosmetic name already contains that exact substring, in which case the
cosmetic name is used unmodified.  The spec states no condition on the band
bounds themselves. -/
def specPersistenceName (cosmetic : String) (fmin fmax : ℤ) : String :=
  let pat := freqPattern fmin fmax
  if containsSub cosmetic pat then cosmetic else cosmetic ++ "_" ++ pat

/-! ## Chunk grid (`AcousticIndex._setup_from_config`, duration gate) -/

/-- Configuration fields read by `_setup_from_config` (base_index.py 30-39). -/
structure ChunkConfig where
  chunk_duration_sec : ℚ
  sample_rate : ℚ
  file_duration_sec : ℚ

/-- `int(self.sample_rate * self.chunk_duration_sec)` (base_index.py line 38). -/
def samplesPerChunk (c : ChunkConfig) : ℤ :=
  pyInt (c.sample_rate * c.chunk_duration_sec)

/-- `int(self.file_duration_sec / self.chunk_duration_sec)` (base_index.py line 39). -/
def nChunks (c : ChunkConfig) : ℤ :=
  pyInt (c.file_duration_sec / c.chunk_duration_sec)

/-- Per-file outcome of the duration gate in
`TemporalIndicesProcessor.process_file` (temporal_processor.py lines 93-99):
out-of-tolerance files yield a skip marker (returned, not raised). -/
inductive TemporalOutcome where
  | skipped
  | accepted
deriving DecidableEq

/-- Translated from temporal_processor.py lines 96-99: the file is skipped
iff `abs(duration_sec - self.file_duration_sec) > tolerance_sec`. -/
def durationOutcome (duration_sec file_duration_sec tolerance_sec : ℚ) :
    TemporalOutcome :=
  if |duration_sec - file_duration_sec| > tolerance_sec then .skipped
  else .accepted

/-- The hard-coded temporal tolerance (temporal_processor.py line 95). -/
def temporalToleranceSec : ℚ := 2

/-! ## Spectral chunk bounds (`SpectralIndicesProcessor`) -/

/-- `self.pixels_per_chunk = time_bins // self.n_chunks`
(spectral_processor.py line 115). -/
def pixelsPerChunk (time_bins n_chunks : ℕ) : ℕ := time_bins / n_chunks

/-- `end_col = start_col + self.pixels_per_chunk` with
`start_col = i * self.pixels_per_chunk` (spectral_processor.py lines 198-199). -/
def chunkEndCol (ppc i : ℕ) : ℕ := i * ppc + ppc

/-- Length of the Python slice `[start:stop]` of an array of width `width`. -/
def sliceWidth (width start stop : ℕ) : ℕ := min stop width - min start width

/-- The first bounds-violation branch, `if end_col > width`
(spectral_processor.py lines 202-203). -/
def chunkBoundsErr (time_bins n_chunks i : ℕ) : Bool :=
  chunkEndCol (pixelsPerChunk time_bins n_chunks) i > time_bins

/-- The second bounds-violation branch,
`if chunk_tensor.shape[1] != self.pixels_per_chunk`
(spectral_processor.py lines 209-210). -/
def chunkWidthErr (time_bins n_chunks i : ℕ) : Bool :=
  sliceWidth time_bins (i * pixelsPerChunk time_bins n_chunks)
      (chunkEndCol (pixelsPerChunk time_bins n_chunks) i)
    ≠ pixelsPerChunk time_bins n_chunks

/-! ## Shard filter (`filter_files_by_target`) -/

/-- Translated from process_acoustic_indices.py lines 129-136: keep the files
whose position in the listing has `i % 10` in the target set, in order. -/
def filter_files_by_target (files : List String) (target_indices : List ℕ) :
    List String :=
  (files.enum.filter (fun p => p.1 % 10 ∈ target_indices)).map (fun p => p.2)

/-! ## Helper lemmas about the string utilities -/

lemma isPrefixOf_self (l : List Char) : l.isPrefixOf l = true := by
  induction l with
  | nil => rfl
  | cons c t ih => simp [List.isPrefixOf, ih]

lemma infixChars_suffix (p : List Char) : ∀ l : List Char, infixChars p (l ++ p) = true := by
  intro l
  induction l with
  | nil =>
    cases p with
    | nil => rfl
    | cons c t => simp [infixChars, isPrefixOf_self]
  | cons c l ih => simp [infixChars, ih]

lemma containsSub_append_suffix (a b : String) : containsSub (a ++ b) b = true := by
  show infixChars b.toList (a ++ b).toList = true
  have h : (a ++ b).toList = a.toList ++ b.toList := String.data_append a b
  rw [h]
  exact infixChars_suffix b.toList a.toList

/-! ## Claim C3: persistence-name generation -/

lemma generateDatabaseName_eq_spec (cosmetic processor : String)
    (params : List (String × ℤ))
    (hproc : processor ∈ freqDependentProcessors)
    (hmin : resolvedFreqMin params ≠ 0) (hmax : resolvedFreqMax params ≠ 0) :
    generateDatabaseName cosmetic processor params
      = specPersistenceName cosmetic (resolvedFreqMin params) (resolvedFreqMax params) := by
  unfold generateDatabaseName specPersistenceName
  rw [if_pos hproc, if_pos ⟨hmin, hmax⟩]

/-- C3 counterexample: the claim fails as stated.  (1) A cosmetic name that
already contains both band patterns resolves to the *same* persistence name
for bands `(500,2000)` and `(2000,8000)`, so the two names are not distinct.
(2) With a resolved band bound of `0` (Python falsy) the code returns the
cosmetic name unmodified, not the spec formula `f"{name}_{min}-{max}"`. -/
theorem generateDatabaseName_claim_counterexample :
    (generateDatabaseName "x_500-2000-8000" "bioacoustics_index"
        [("freq_min", 500), ("freq_max", 2000)]
      = generateDatabaseName "x_500-2000-8000" "bioacoustics_index"
        [("freq_min", 2000), ("freq_max", 8000)])
    ∧ generateDatabaseName "standard_bai" "bioacoustics_index"
        [("freq_min", 0), ("freq_max", 500)] = "standard_bai"
    ∧ specPersistenceName "standard_bai" 0 500 = "standard_bai_0-500" := by
  refine ⟨by decide, by decide, by decide⟩


/-- The configuration parameter set for the band `(500, 2000)`. -/
def paramsLowBand : List (String × ℤ) := [("freq_min", 500), ("freq_max", 2000)]

/-- The configuration parameter set for the band `(2000, 8000)`. -/
def paramsHighBand : List (String × ℤ) := [("freq_min", 2000), ("freq_max", 8000)]

/-- C3 (amended): for a frequency-band-dependent processor whose resolved band
bounds are both nonzero, the persistence name follows the spec formula
(`cosmetic ++ "_" ++ pattern` unless `pattern` already occurs in the cosmetic
name); and resolving with bands `(500,2000)` and `(2000,8000)` yields two
distinct names, each containing its own band pattern, provided the cosmetic
name does not already contain both band patterns. -/
theorem generateDatabaseName_amended (cosmetic processor : String)
    (params : List (String × ℤ))
    (hproc : processor ∈ freqDependentProcessors)
    (hmin : resolvedFreqMin params ≠ 0) (hmax : resolvedFreqMax params ≠ 0)
    (hboth : ¬(containsSub cosmetic "500-2000" = true
               ∧ containsSub cosmetic "2000-8000" = true)) :
    generateDatabaseName cosmetic processor params
      = specPersistenceName cosmetic (resolvedFreqMin params) (resolvedFreqMax params)
    ∧ generateDatabaseName cosmetic processor paramsLowBand
      ≠ generateDatabaseName cosmetic processor paramsHighBand
    ∧ containsSub (generateDatabaseName cosmetic processor paramsLowBand)
        "500-2000" = true
    ∧ containsSub (generateDatabaseName cosmetic processor paramsHighBand)
        "2000-8000" = true := by
  have hlow : generateDatabaseName cosmetic processor paramsLowBand
      = specPersistenceName cosmetic 500 2000 := by
    rw [generateDatabaseName_eq_spec _ _ _ hproc (by decide) (by decide)]
    rfl
  have hhigh : generateDatabaseName cosmetic processor paramsHighBand
      = specPersistenceName cosmetic 2000 8000 := by
    rw [generateDatabaseName_eq_spec _ _ _ hproc (by decide) (by decide)]
    rfl
  have hp1 : freqPattern 500 2000 = "500-2000" := by decide
  have hp2 : freqPattern 2000 8000 = "2000-8000" := by decide
  have hspec1 : specPersistenceName cosmetic 500 2000
      = if containsSub cosmetic "500-2000" then cosmetic
        else cosmetic ++ "_" ++ "500-2000" := by
    unfold specPersistenceName
    rw [hp1]
  have hspec2 : specPersistenceName cosmetic 2000 8000
      = if containsSub cosmetic "2000-8000" then cosmetic
        else cosmetic ++ "_" ++ "2000-8000" := by
    unfold specPersistenceName
    rw [hp2]
  have hlen1 : ("_" : String).length = 1 := by decide
  have hlen8 : ("500-2000" : String).length = 8 := by decide
  have hlen9 : ("2000-8000" : String).length = 9 := by decide
  refine ⟨generateDatabaseName_eq_spec _ _ _ hproc hmin hmax, ?_, ?_, ?_⟩
  · rw [hlow, hhigh, hspec1, hspec2]
    rcases h1 : containsSub cosmetic "500-2000" with _ | _ <;>
      rcases h2 : containsSub cosmetic "2000-8000" with _ | _
    · simp only [Bool.false_eq_true, if_neg, if_false]
      intro he
      have hl := congrArg String.length he
      rw [String.length_append, String.length_append,
          String.length_append, String.length_append, hlen1, hlen8, hlen9] at hl
      omega
    · simp only [if_pos, if_neg, Bool.false_eq_true, if_false, if_true]
      intro he
      have hl := congrArg String.length he
      rw [String.length_append, String.length_append, hlen1, hlen8] at hl
      omega
    · simp only [if_pos, if_neg, Bool.false_eq_true, if_false, if_true]
      intro he
      have hl := congrArg String.length he
      rw [String.length_append, String.length_append, hlen1, hlen9] at hl
      omega
    · exact absurd ⟨h1, h2⟩ hboth
  · rw [hlow, hspec1]
    rcases h1 : containsSub cosmetic "500-2000" with _ | _
    · simp only [Bool.false_eq_true, if_false]
      exact containsSub_append_suffix (cosmetic ++ "_") "500-2000"
    · simpa using h1
  · rw [hhigh, hspec2]
    rcases h2 : containsSub cosmetic "2000-8000" with _ | _
    · simp only [Bool.false_eq_true, if_false]
      exact containsSub_append_suffix (cosmetic ++ "_") "2000-8000"
    · simpa using h2

/-- Witness for `generateDatabaseName_amended` at a concrete input. -/
theorem generateDatabaseName_amended_witness :
    ("bioacoustics_index" ∈ freqDependentProcessors
     ∧ resolvedFreqMin paramsLowBand ≠ 0
     ∧ resolvedFreqMax paramsLowBand ≠ 0
     ∧ ¬(containsSub "frog_bai" "500-2000" = true
         ∧ containsSub "frog_bai" "2000-8000" = true))
    ∧ (generateDatabaseName "frog_bai" "bioacoustics_index" paramsLowBand
        = specPersistenceName "frog_bai" (resolvedFreqMin paramsLowBand)
            (resolvedFreqMax paramsLowBand)
      ∧ generateDatabaseName "frog_bai" "bioacoustics_index" paramsLowBand
        ≠ generateDatabaseName "frog_bai" "bioacoustics_index" paramsHighBand
      ∧ containsSub (generateDatabaseName "frog_bai" "bioacoustics_index" paramsLowBand)
          "500-2000" = true
      ∧ containsSub (generateDatabaseName "frog_bai" "bioacoustics_index" paramsHighBand)
          "2000-8000" = true) :=
  ⟨⟨by decide, by decide, by decide, by decide⟩,
    generateDatabaseName_amended "frog_bai" "bioacoustics_index" paramsLowBand
      (by decide) (by decide) (by decide) (by decide)⟩

/-! ## Claim C8: tolerance boundary -/

/-- C8: a file whose actual duration equals `expected + tolerance` is accepted,
while `expected + tolerance + 0.01` yields the skip outcome (a returned
marker, not a raised error), for every expected duration and every
(nonnegative) tolerance. -/
theorem duration_tolerance_boundary (e tol : ℚ) (htol : 0 ≤ tol) :
    durationOutcome (e + tol) e tol = .accepted
    ∧ durationOutcome (e + tol + 1 / 100) e tol = .skipped := by
  constructor
  · unfold durationOutcome
    rw [if_neg]
    rw [show e + tol - e = tol by ring, abs_of_nonneg htol]
    exact lt_irrefl tol
  · unfold durationOutcome
    rw [if_pos]
    rw [show e + tol + 1 / 100 - e = tol + 1 / 100 by ring,
        abs_of_nonneg (by linarith)]
    linarith

/-- Witness for `duration_tolerance_boundary` at `expected = 900`,
`tolerance = 2` (the values used by the temporal processor). -/
theorem duration_tolerance_boundary_witness :
    (0 : ℚ) ≤ temporalToleranceSec
    ∧ (durationOutcome (900 + temporalToleranceSec) 900 temporalToleranceSec = .accepted
      ∧ durationOutcome (900 + temporalToleranceSec + 1 / 100) 900 temporalToleranceSec
          = .skipped) :=
  ⟨by norm_num [temporalToleranceSec],
    duration_tolerance_boundary 900 temporalToleranceSec
      (by norm_num [temporalToleranceSec])⟩

/-! ## Claim C9: chunk-count determinism and value -/

/-- C9: the chunk count computed by `_setup_from_config` depends only on
`(file_duration_sec, chunk_duration_sec)` (so it is the same on every call
with a fixed pair), and for `file_duration_sec = 900`,
`chunk_duration_sec = 4.5` it equals `200`. -/
theorem nChunks_deterministic_and_value :
    (∀ c₁ c₂ : ChunkConfig, c₁.file_duration_sec = c₂.file_duration_sec →
      c₁.chunk_duration_sec = c₂.chunk_duration_sec → nChunks c₁ = nChunks c₂)
    ∧ ∀ sr : ℚ, nChunks ⟨9 / 2, sr, 900⟩ = 200 := by
  constructor
  · intro c₁ c₂ h₁ h₂
    unfold nChunks
    rw [h₁, h₂]
  · intro sr
    unfold nChunks
    have h : (900 : ℚ) / ((9 : ℚ) / 2) = 200 := by norm_num
    show pyInt ((900 : ℚ) / ((9 : ℚ) / 2)) = 200
    rw [h]
    unfold pyInt
    rw [Rat.num_ofNat, Rat.den_ofNat]
    decide

/-- Witness for `nChunks_deterministic_and_value` at concrete configurations
(differing only in sample rate, which the chunk count must ignore). -/
theorem nChunks_deterministic_and_value_witness :
    nChunks ⟨9 / 2, 1, 900⟩ = nChunks ⟨9 / 2, 2, 900⟩
    ∧ nChunks ⟨9 / 2, 1, 900⟩ = 200 :=
  ⟨nChunks_deterministic_and_value.1 ⟨9 / 2, 1, 900⟩ ⟨9 / 2, 2, 900⟩ rfl rfl,
    nChunks_deterministic_and_value.2 1⟩

/-! ## Claim C10: spectral chunk bounds are safe -/

/-- C10: with `pixels_per_chunk = time_bins // n_chunks` recomputed from the
loaded array's width, every chunk index `i < n_chunks` has
`i * pixels_per_chunk + pixels_per_chunk ≤ time_bins`, and the extracted slice
has exactly `pixels_per_chunk` columns, so both bounds-violation error
branches of the chunk loop are unreachable. -/
theorem spectral_chunk_bounds_safe (time_bins n_chunks i : ℕ)
    (h : i < n_chunks) :
    chunkBoundsErr time_bins n_chunks i = false
    ∧ chunkWidthErr time_bins n_chunks i = false := by
  have hle : chunkEndCol (pixelsPerChunk time_bins n_chunks) i ≤ time_bins := by
    unfold chunkEndCol pixelsPerChunk
    calc i * (time_bins / n_chunks) + time_bins / n_chunks
        = (i + 1) * (time_bins / n_chunks) := by ring
      _ ≤ n_chunks * (time_bins / n_chunks) :=
          Nat.mul_le_mul_right _ (Nat.succ_le_of_lt h)
      _ ≤ time_bins := Nat.mul_div_le time_bins n_chunks
  constructor
  · unfold chunkBoundsErr
    simp only [decide_eq_false_iff_not, not_lt]
    exact hle
  · unfold chunkWidthErr
    simp only [decide_eq_false_iff_not, ne_eq, Decidable.not_not]
    unfold sliceWidth
    rw [min_eq_left hle,
        min_eq_left (le_trans (Nat.le_add_right _ _) hle)]
    unfold chunkEndCol
    omega

/-- Witness for `spectral_chunk_bounds_safe` at a concrete input
(`time_bins = 2687`, `n_chunks = 200`, last chunk). -/
theorem spectral_chunk_bounds_safe_witness :
    199 < 200
    ∧ (chunkBoundsErr 2687 200 199 = false ∧ chunkWidthErr 2687 200 199 = false) :=
  ⟨by decide, spectral_chunk_bounds_safe 2687 200 199 (by decide)⟩

/-! ## Claim C7: the modulo-10 shard assignment is a true partition -/

lemma flatMap_if_mem_perm {α : Type} (g : ℕ → List α) (x : α) :
    ∀ (L : List ℕ), L.Nodup → ∀ j ∈ L,
      (L.flatMap (fun t => if j = t then x :: g t else g t)).Perm
        (x :: L.flatMap g) := by
  intro L
  induction L with
  | nil => intro _ j hj; exact absurd hj (List.not_mem_nil j)
  | cons a L ih =>
    intro hnd j hj
    have hna : a ∉ L := (List.nodup_cons.mp hnd).1
    have hndL : L.Nodup := (List.nodup_cons.mp hnd).2
    rcases List.mem_cons.mp hj with hja | hjL
    · subst hja
      have hrest : L.flatMap (fun t => if j = t then x :: g t else g t)
          = L.flatMap g := by
        simp only [List.flatMap]
        apply congrArg List.flatten
        apply List.map_congr_left
        intro t ht
        have : j ≠ t := fun he => hna (he ▸ ht)
        rw [if_neg this]
      rw [List.flatMap_cons, hrest, if_pos rfl]
      exact List.Perm.refl _
    · have hja : j ≠ a := fun he => hna (he ▸ hjL)
      rw [List.flatMap_cons, if_neg hja, List.flatMap_cons]
      exact (List.Perm.append_left _ (ih hndL j hjL)).trans List.perm_middle

/-- Selection of shard `t` from the listing enumerated starting at `k`. -/
def shardSelect (k : ℕ) (l : List String) (t : ℕ) : List String :=
  ((List.enumFrom k l).filter (fun p => p.1 % 10 ∈ [t])).map (fun p => p.2)

lemma filter_files_by_target_eq_shardSelect (files : List String) (t : ℕ) :
    filter_files_by_target files [t] = shardSelect 0 files t := by
  unfold filter_files_by_target shardSelect
  rw [List.enum_eq_enumFrom]

lemma shardSelect_union_perm (l : List String) :
    ∀ k : ℕ, ((List.range 10).flatMap (shardSelect k l)).Perm l := by
  induction l with
  | nil =>
    intro k
    have h : ∀ t, shardSelect k [] t = [] := by intro t; rfl
    simp [h]
  | cons x l ih =>
    intro k
    have hfun : ∀ t, shardSelect k (x :: l) t
        = if k % 10 = t then x :: shardSelect (k + 1) l t
          else shardSelect (k + 1) l t := by
      intro t
      unfold shardSelect
      rw [List.enumFrom_cons, List.filter_cons]
      by_cases h : k % 10 = t
      · simp [h]
      · simp [h]
    have hflat : (List.range 10).flatMap (shardSelect k (x :: l))
        = (List.range 10).flatMap
            (fun t => if k % 10 = t then x :: shardSelect (k + 1) l t
                      else shardSelect (k + 1) l t) := by
      simp only [List.flatMap]
      apply congrArg List.flatten
      exact List.map_congr_left (fun t _ => hfun t)
    rw [hflat]
    have hmem : k % 10 ∈ List.range 10 :=
      List.mem_range.mpr (Nat.mod_lt k (by norm_num))
    exact (flatMap_if_mem_perm (shardSelect (k + 1) l) x (List.range 10)
        (List.nodup_range 10) (k % 10) hmem).trans
      (List.Perm.cons x (ih (k + 1)))

/-- C7: the shard assignment is a true partition: concatenating the
selections for target sets `{0}..{9}` is a permutation of the full listing
(every file exactly once, no gaps, no duplicates), and every selection is a
sublist of the listing (listing order preserved). -/
theorem filter_files_by_target_partition (files : List String) :
    ((List.range 10).flatMap (fun t => filter_files_by_target files [t])).Perm files
    ∧ ∀ targets : List ℕ, (filter_files_by_target files targets).Sublist files := by
  constructor
  · have h : (fun t => filter_files_by_target files [t]) = shardSelect 0 files := by
      funext t
      exact filter_files_by_target_eq_shardSelect files t
    rw [h]
    exact shardSelect_union_perm files 0
  · intro targets
    have h := List.Sublist.map (fun p : ℕ × String => p.2)
      (List.filter_sublist (p := fun p : ℕ × String => decide (p.1 % 10 ∈ targets))
        files.enum)
    have h2 : files.enum.map (fun p : ℕ × String => p.2) = files :=
      List.enum_map_snd files
    rw [h2] at h
    exact h

/-! ## Data model: database tables

The embedding models the `config=None` code path of `DatabaseManager` (its
default constructor argument): `_get_file_id` is the filename-based lookup and
`_derive_wav_from_npz` is the plain `'_spec.npz' -> '.WAV'` suffix
replacement. -/

/-- A row of the `audio_files` table (audio_database.py lines 30-53; columns
used by this core).  `processing_status` is the status-marker column updated
by the sharded driver. -/
structure AudioFileRow where
  id : ℕ
  filepath : String
  filename : String
  processing_status : String
deriving DecidableEq

/-- A row of the `acoustic_indices_core` table (database_manager.py lines
59-71). -/
structure CoreRow where
  file_id : ℕ
  index_name : String
  chunk_index : ℕ
  start_time_sec : ℚ
  value : ℚ
  processing_type : String
deriving DecidableEq

/-- A row of the `index_configurations` table (database_manager.py lines
131-143). -/
structure ConfigRow where
  config_name : String
  index_name : String
  processor_name : String
  config_fragment : String
  config_hash : String
deriving DecidableEq

/-- The mutable database contents touched by the core. -/
structure DBState where
  audioFiles : List AudioFileRow
  core : List CoreRow
  configs : List ConfigRow
deriving DecidableEq

/-- `_get_file_id` (database_manager.py lines 278-282, the filename-based
lookup): `SELECT id FROM audio_files WHERE filename = ?` with
`fetchone()` returning the first row in table (rowid) order. -/
def getFileId (afs : List AudioFileRow) (wav_filepath : String) : Option ℕ :=
  ((afs.filter (fun a => a.filename = basename wav_filepath)).head?).map
    (fun a => a.id)

/-- The unique key of `acoustic_indices_core`:
`UNIQUE(file_id, index_name, chunk_index)`. -/
def rowKey (r : CoreRow) : ℕ × String × ℕ := (r.file_id, r.index_name, r.chunk_index)

/-- One `INSERT OR REPLACE` into `acoustic_indices_core`: every row sharing
the unique key is deleted and the new row is appended. -/
def applyRow (t : List CoreRow) (r : CoreRow) : List CoreRow :=
  t.filter (fun x => rowKey x ≠ rowKey r) ++ [r]

/-- The rows built by the `store_indices` loop (database_manager.py lines
193-207), raising `ValueError` on the first index whose value count differs
from the timestamp count. -/
def rowsToInsert (fid : ℕ) (pt : String) (data : List (String × List ℚ))
    (ts : List ℚ) : Except String (List CoreRow) :=
  data.foldlM
    (fun acc nv =>
      if nv.2.length ≠ ts.length then
        Except.error "ValueError: values length != timestamps length"
      else
        Except.ok (acc ++ (ts.zip nv.2).enum.map
          (fun p => ⟨fid, nv.1, p.1, p.2.1, p.2.2, pt⟩)))
    []

/-- Translated from `DatabaseManager.store_indices` (database_manager.py lines
153-219): derive the WAV path, look up the file id, build the rows, and
`INSERT OR REPLACE` them.  A missing file id makes the insert violate the
`NOT NULL` constraint (IntegrityError) unless there are no rows to insert. -/
def store_indices (st : DBState) (filepath pt : String)
    (data : List (String × List ℚ)) (ts : List ℚ) : Except String DBState :=
  if pt ≠ "temporal" ∧ pt ≠ "spectral" then
    Except.error "ValueError: Unknown processing type"
  else
    match getFileId st.audioFiles
        (if pt = "spectral" then strReplace filepath "_spec.npz" ".WAV"
         else filepath) with
    | none =>
      (rowsToInsert 0 pt data ts).bind
        (fun rows =>
          if rows.isEmpty then Except.ok st
          else Except.error "IntegrityError: NOT NULL constraint failed")
    | some fid =>
      (rowsToInsert fid pt data ts).map
        (fun rows => { st with core := rows.foldl applyRow st.core })

/-! ## Claim C1: idempotent upsert -/

lemma applyRow_nodup_keys {t : List CoreRow} (h : (t.map rowKey).Nodup)
    (r : CoreRow) : ((applyRow t r).map rowKey).Nodup := by
  unfold applyRow
  rw [List.map_append, List.nodup_append]
  refine ⟨?_, by simp, ?_⟩
  · exact ((List.filter_sublist t).map rowKey).nodup h
  · intro k hk
    simp only [List.map_cons, List.map_nil, List.mem_singleton]
    rcases List.mem_map.mp hk with ⟨x, hx, hxk⟩
    have := List.of_mem_filter hx
    simp only [decide_eq_true_eq] at this
    intro he
    exact this (hxk.trans he)

lemma applyRow_key_mem (t : List CoreRow) (r : CoreRow) :
    rowKey r ∈ (applyRow t r).map rowKey := by
  unfold applyRow
  rw [List.map_append]
  exact List.mem_append_right _ (by simp)

lemma applyRow_key_preserved {t : List CoreRow} {k : ℕ × String × ℕ}
    (h : k ∈ t.map rowKey) (r : CoreRow) :
    k ∈ (applyRow t r).map rowKey := by
  unfold applyRow
  rw [List.map_append]
  rcases List.mem_map.mp h with ⟨x, hx, hxk⟩
  by_cases hk : k = rowKey r
  · exact List.mem_append_right _ (by simp [hk])
  · refine List.mem_append_left _ (List.mem_map.mpr ⟨x, ?_, hxk⟩)
    refine List.mem_filter.mpr ⟨hx, ?_⟩
    simp only [decide_eq_true_eq]
    intro he
    exact hk (hxk.symm.trans he)

lemma foldl_applyRow_nodup :
    ∀ (rows : List CoreRow) (t : List CoreRow), (t.map rowKey).Nodup →
      ((rows.foldl applyRow t).map rowKey).Nodup := by
  intro rows
  induction rows with
  | nil => intro t h; exact h
  | cons r rest ih =>
    intro t h
    exact ih (applyRow t r) (applyRow_nodup_keys h r)

lemma foldl_applyRow_key_preserved {k : ℕ × String × ℕ} :
    ∀ (rows : List CoreRow) (t : List CoreRow), k ∈ t.map rowKey →
      k ∈ (rows.foldl applyRow t).map rowKey := by
  intro rows
  induction rows with
  | nil => intro t h; exact h
  | cons r rest ih =>
    intro t h
    exact ih (applyRow t r) (applyRow_key_preserved h r)

lemma foldl_applyRow_keys_mem :
    ∀ (rows : List CoreRow) (t : List CoreRow) (r : CoreRow), r ∈ rows →
      rowKey r ∈ (rows.foldl applyRow t).map rowKey := by
  intro rows
  induction rows with
  | nil => intro t r h; exact absurd h (List.not_mem_nil r)
  | cons r₀ rest ih =>
    intro t r h
    rcases List.mem_cons.mp h with h | h
    · subst h
      exact foldl_applyRow_key_preserved rest (applyRow t r) (applyRow_key_mem t r)
    · exact ih (applyRow t r₀) r h

lemma filter_ne_key_eq_self {t : List CoreRow} {k : ℕ × String × ℕ}
    (h : k ∉ t.map rowKey) : t.filter (fun x => rowKey x ≠ k) = t := by
  apply List.filter_eq_self.mpr
  intro x hx
  simp only [decide_eq_true_eq]
  intro he
  exact h (List.mem_map.mpr ⟨x, hx, he⟩)

lemma length_filter_ne_key {t : List CoreRow} {k : ℕ × String × ℕ}
    (h : (t.map rowKey).Nodup) (hm : k ∈ t.map rowKey) :
    (t.filter (fun x => rowKey x ≠ k)).length + 1 = t.length := by
  induction t with
  | nil => exact absurd hm (List.not_mem_nil k)
  | cons x t ih =>
    rw [List.map_cons, List.nodup_cons] at h
    by_cases hx : rowKey x = k
    · rw [List.filter_cons_of_neg (by simp [hx]), List.length_cons]
      rw [filter_ne_key_eq_self (hx ▸ h.1)]
    · have hm' : k ∈ t.map rowKey := by
        rcases List.mem_cons.mp hm with h' | h'
        · exact absurd h'.symm hx
        · exact h'
      rw [List.filter_cons_of_pos (by simp [hx]), List.length_cons,
          List.length_cons]
      rw [← ih h.2 hm']

lemma applyRow_length {t : List CoreRow} {r : CoreRow}
    (h : (t.map rowKey).Nodup) (hm : rowKey r ∈ t.map rowKey) :
    (applyRow t r).length = t.length := by
  unfold applyRow
  rw [List.length_append]
  simp only [List.length_cons, List.length_nil]
  rw [← length_filter_ne_key h hm]

lemma foldl_applyRow_length :
    ∀ (rows : List CoreRow) (t : List CoreRow), (t.map rowKey).Nodup →
      (∀ r ∈ rows, rowKey r ∈ t.map rowKey) →
      (rows.foldl applyRow t).length = t.length := by
  intro rows
  induction rows with
  | nil => intro t _ _; rfl
  | cons r rest ih =>
    intro t hnd hmem
    have h₁ : (applyRow t r).length = t.length :=
      applyRow_length hnd (hmem r (List.mem_cons_self r rest))
    have h₂ : ∀ r' ∈ rest, rowKey r' ∈ (applyRow t r).map rowKey := by
      intro r' hr'
      exact applyRow_key_preserved (hmem r' (List.mem_cons_of_mem r hr')) r
    rw [List.foldl_cons, ih (applyRow t r) (applyRow_nodup_keys hnd r) h₂, h₁]

/-- C1: calling `store_indices` twice with identical arguments leaves the
`acoustic_indices_core` table with the same row count after the second call
as after the first, and with at most one row per
`(file_id, index_name, chunk_index)` key (given the table satisfies its
`UNIQUE` constraint initially). -/
theorem store_indices_idempotent (st st₁ st₂ : DBState) (fp pt : String)
    (data : List (String × List ℚ)) (ts : List ℚ)
    (hwf : (st.core.map rowKey).Nodup)
    (h₁ : store_indices st fp pt data ts = Except.ok st₁)
    (h₂ : store_indices st₁ fp pt data ts = Except.ok st₂) :
    st₂.core.length = st₁.core.length ∧ (st₂.core.map rowKey).Nodup := by
  unfold store_indices at h₁ h₂
  by_cases hpt : pt ≠ "temporal" ∧ pt ≠ "spectral"
  · rw [if_pos hpt] at h₁
    exact absurd h₁ (by simp)
  · rw [if_neg hpt] at h₁
    cases hfid : getFileId st.audioFiles
        (if pt = "spectral" then strReplace fp "_spec.npz" ".WAV" else fp) with
    | none =>
      rw [hfid] at h₁
      cases hrows : rowsToInsert 0 pt data ts with
      | error e => rw [hrows] at h₁; exact absurd h₁ (by simp [Except.bind])
      | ok rows =>
        rw [hrows] at h₁
        by_cases hemp : rows.isEmpty
        · simp only [Except.bind, hemp, if_true, Except.ok.injEq] at h₁
          subst h₁
          rw [if_neg hpt, hfid, hrows] at h₂
          simp only [Except.bind, hemp, if_true, Except.ok.injEq] at h₂
          subst h₂
          exact ⟨rfl, hwf⟩
        · simp only [Except.bind, hemp, if_false] at h₁
          exact absurd h₁ (by simp)
    | some fid =>
      rw [hfid] at h₁
      dsimp only at h₁
      cases hrows : rowsToInsert fid pt data ts with
      | error e => rw [hrows] at h₁; exact absurd h₁ (by simp [Except.map])
      | ok rows =>
        rw [hrows] at h₁
        simp only [Except.map, Except.ok.injEq] at h₁
        subst h₁
        rw [if_neg hpt] at h₂
        have hfid' : getFileId st.audioFiles
            (if pt = "spectral" then strReplace fp "_spec.npz" ".WAV" else fp)
            = some fid := hfid
        rw [hfid'] at h₂
        dsimp only at h₂
        rw [hrows] at h₂
        simp only [Except.map, Except.ok.injEq] at h₂
        subst h₂
        simp only []
        constructor
        · exact foldl_applyRow_length rows (rows.foldl applyRow st.core)
            (foldl_applyRow_nodup rows st.core hwf)
            (fun r hr => foldl_applyRow_keys_mem rows st.core r hr)
        · exact foldl_applyRow_nodup rows (rows.foldl applyRow st.core)
            (foldl_applyRow_nodup rows st.core hwf)

/-- A tiny concrete database: one audio file, empty core table. -/
def witnessSt0 : DBState :=
  { audioFiles := [{ id := 1, filepath := "/rec/F.WAV", filename := "F.WAV",
                     processing_status := "" }],
    core := [], configs := [] }

/-- Concrete computed values for the witness store. -/
def witnessData : List (String × List ℚ) := [("temporal_entropy", [5, 7])]

/-- Concrete chunk timestamps for the witness store. -/
def witnessTs : List ℚ := [0, 450]

/-- The state after storing `witnessData` into `witnessSt0`. -/
def witnessSt1 : DBState :=
  { audioFiles := witnessSt0.audioFiles,
    core := [{ file_id := 1, index_name := "temporal_entropy", chunk_index := 0,
               start_time_sec := 0, value := 5, processing_type := "temporal" },
             { file_id := 1, index_name := "temporal_entropy", chunk_index := 1,
               start_time_sec := 450, value := 7, processing_type := "temporal" }],
    configs := [] }

/-- Witness for `store_indices_idempotent` at a concrete input. -/
theorem store_indices_idempotent_witness :
    ((witnessSt0.core.map rowKey).Nodup
     ∧ store_indices witnessSt0 "/rec/F.WAV" "temporal" witnessData witnessTs
         = Except.ok witnessSt1
     ∧ store_indices witnessSt1 "/rec/F.WAV" "temporal" witnessData witnessTs
         = Except.ok witnessSt1)
    ∧ (witnessSt1.core.length = witnessSt1.core.length
       ∧ (witnessSt1.core.map rowKey).Nodup) :=
  ⟨⟨by decide, rfl, rfl⟩,
    store_indices_idempotent witnessSt0 witnessSt1 witnessSt1 "/rec/F.WAV"
      "temporal" witnessData witnessTs (by decide) rfl rfl⟩

/-! ## Retrieval: `get_indices_for_file` and `get_indices_for_files_bulk`

SQL `ORDER BY` is modelled by `List.insertionSort` with the lexicographic
comparator on the ordered columns; string comparison is on character codes. -/

/-- Character codes of a string, the sort key for `TEXT` columns. -/
def strNatKey (s : String) : List ℕ := s.toList.map Char.toNat

/-- Lexicographic order on lists of naturals (total preorder used for
`ORDER BY` over `TEXT` columns). -/
def lexLe : List ℕ → List ℕ → Bool
  | [], _ => true
  | _ :: _, [] => false
  | a :: s, b :: t => if a < b then true else if b < a then false else lexLe s t

/-- `ORDER BY index_name, chunk_index` on the selected
`(index_name, chunk_index, value)` triples. -/
def tripleLeB (a b : String × ℕ × ℚ) : Bool :=
  if lexLe (strNatKey a.1) (strNatKey b.1) then
    if lexLe (strNatKey b.1) (strNatKey a.1) then decide (a.2.1 ≤ b.2.1)
    else true
  else false

/-- `tripleLeB` as a relation, for `List.insertionSort`. -/
def tripleLe (a b : String × ℕ × ℚ) : Prop := tripleLeB a b = true

instance : DecidableRel tripleLe :=
  fun a b => inferInstanceAs (Decidable (tripleLeB a b = true))

/-- `ORDER BY af.filepath, aic.index_name, aic.chunk_index` on the selected
`(filepath, index_name, chunk_index, value)` quadruples. -/
def quadLeB (a b : String × String × ℕ × ℚ) : Bool :=
  if lexLe (strNatKey a.1) (strNatKey b.1) then
    if lexLe (strNatKey b.1) (strNatKey a.1) then tripleLeB a.2 b.2
    else true
  else false

/-- `quadLeB` as a relation, for `List.insertionSort`. -/
def quadLe (a b : String × String × ℕ × ℚ) : Prop := quadLeB a b = true

instance : DecidableRel quadLe :=
  fun a b => inferInstanceAs (Decidable (quadLeB a b = true))

/-- Python `s.endswith(pat)`. -/
def strEndsWith (s pat : String) : Bool := pat.toList.isSuffixOf s.toList

/-- NPZ-to-WAV path conversion used by the retrieval paths
(database_manager.py lines 304-308 and 539-545; the `config=None` path is the
plain suffix replacement). -/
def toWavPath (pt : String) (fp : String) : String :=
  if pt = "spectral" ∧ strEndsWith fp "_spec.npz" then
    strReplace fp "_spec.npz" ".WAV"
  else fp

/-- The optional `processing_type` filter of `get_indices_for_file`
(database_manager.py lines 324-326); Python truthiness makes `None` and the
empty string both mean "no filter". -/
def ptMatch (pt? : Option String) (r : CoreRow) : Bool :=
  match pt? with
  | none => true
  | some pt => if pt = "" then true else decide (r.processing_type = pt)

/-- The optional `index_names` filter (database_manager.py lines 328-331 and
573-576); Python truthiness makes `None` and the empty list both mean "no
filter". -/
def namesMatch (names? : Option (List String)) (n : String) : Bool :=
  match names? with
  | none => true
  | some ns => if ns.isEmpty then true else ns.contains n

/-- The grouping loop of `get_indices_for_file` (database_manager.py lines
340-355) emits `(index_name, values)` flushes whenever the index name
changes; this is the flush sequence, in emission order. -/
def flushSeq : Option (String × List ℚ) → List (String × ℚ) →
    List (String × List ℚ)
  | cur, [] =>
    match cur with
    | none => []
    | some c => [c]
  | cur, (n, v) :: rest =>
    match cur with
    | none => flushSeq (some (n, [v])) rest
    | some c =>
      if n = c.1 then flushSeq (some (c.1, c.2 ++ [v])) rest
      else c :: flushSeq (some (n, [v])) rest

/-- Each flush is written into the Python result dict in emission order. -/
def groupSingle (pairs : List (String × ℚ)) : List (String × List ℚ) :=
  (flushSeq none pairs).foldl (fun d p => dictSet d p.1 p.2) []

/-- Translated from `DatabaseManager.get_indices_for_file`
(database_manager.py lines 284-357). -/
def get_indices_for_file (db : DBState) (filepath : String)
    (pt? : Option String) (names? : Option (List String)) :
    List (String × List ℚ) :=
  match getFileId db.audioFiles
      (match pt? with
       | some pt => toWavPath pt filepath
       | none => filepath) with
  | none => []
  | some fid =>
    if fid = 0 then []
    else
      groupSingle
        (((db.core.filter (fun r =>
              decide (r.file_id = fid) && ptMatch pt? r
                && namesMatch names? r.index_name)).map
            (fun r => (r.index_name, r.chunk_index, r.value))).insertionSort
              tripleLe
          |>.map (fun t => (t.1, t.2.2)))

/-- `path_mapping` of `get_indices_for_files_bulk` (database_manager.py lines
536-545), a dict from WAV path to the original query path. -/
def pathMapping (pt : String) (fps : List String) : List (String × String) :=
  fps.foldl (fun d fp => dictSet d (toWavPath pt fp) fp) []

/-- `path_mapping.get(wav, wav)`. -/
def origOf (pm : List (String × String)) (w : String) : String := dictGetD pm w w

/-- `file_id_mapping` (database_manager.py lines 547-556):
`SELECT id, filepath FROM audio_files WHERE filepath IN (...)`, iterated in
table order into a dict keyed by filepath. -/
def bulkFileIdDict (afs : List AudioFileRow) (wavPaths : List String) :
    List (String × ℕ) :=
  (afs.filter (fun a => wavPaths.contains a.filepath)).foldl
    (fun d a => dictSet d a.filepath a.id) []

/-- The joined rows of the bulk query (database_manager.py lines 562-581):
core rows with `file_id IN (...)` and the given processing type, inner-joined
to `audio_files` for the filepath column. -/
def bulkJoinRows (db : DBState) (fileIds : List ℕ) (pt : String)
    (names? : Option (List String)) : List (String × String × ℕ × ℚ) :=
  db.core.flatMap (fun r =>
    if fileIds.contains r.file_id && decide (r.processing_type = pt)
        && namesMatch names? r.index_name then
      (db.audioFiles.filter (fun a => decide (a.id = r.file_id))).map
        (fun a => (a.filepath, r.index_name, r.chunk_index, r.value))
    else [])

/-- `file_indices[prev][name] = values` with get-or-init of the inner dict
(database_manager.py lines 596-599 etc.). -/
def outerSet (acc : List (String × List (String × List ℚ))) (fp n : String)
    (vals : List ℚ) : List (String × List (String × List ℚ)) :=
  dictSet acc fp (dictSet (dictGetD acc fp []) n vals)

/-- The grouping state machine of `get_indices_for_files_bulk`
(database_manager.py lines 584-621): state is the current file, current index
name, current value list, and the accumulated per-file dict. -/
def bulkAux (pm : List (String × String)) :
    Option String → Option String → List ℚ →
    List (String × List (String × List ℚ)) →
    List (String × String × ℕ × ℚ) →
    List (String × List (String × List ℚ))
  | curFile, curIdx, curVals, acc, [] =>
    match curFile, curIdx with
    | some cf, some ci => outerSet acc (origOf pm cf) ci curVals
    | _, _ => acc
  | curFile, curIdx, curVals, acc, (w, n, _, v) :: rest =>
    if curFile ≠ some w then
      bulkAux pm (some w) (some n) [v]
        (match curFile, curIdx with
         | some cf, some ci => outerSet acc (origOf pm cf) ci curVals
         | _, _ => acc) rest
    else if curIdx ≠ some n then
      bulkAux pm curFile (some n) [v]
        (match curIdx with
         | some ci => outerSet acc (origOf pm w) ci curVals
         | none => acc) rest
    else
      bulkAux pm curFile curIdx (curVals ++ [v]) acc rest

/-- Translated from `DatabaseManager.get_indices_for_files_bulk`
(database_manager.py lines 516-623). -/
def get_indices_for_files_bulk (db : DBState) (fps : List String) (pt : String)
    (names? : Option (List String)) : List (String × List (String × List ℚ)) :=
  if fps.isEmpty then []
  else
    if (bulkFileIdDict db.audioFiles (fps.map (toWavPath pt))).isEmpty then []
    else
      bulkAux (pathMapping pt fps) none none [] []
        ((bulkJoinRows db
            ((bulkFileIdDict db.audioFiles (fps.map (toWavPath pt))).map
              (fun p => p.2))
            pt names?).insertionSort quadLe)

/-- `existing_indices_bulk.get(path, {})` as used by the sharded driver. -/
def bulkGet (res : List (String × List (String × List ℚ))) (fp : String) :
    List (String × List ℚ) :=
  dictGetD res fp []

/-! ## Configuration registration (`store_index_configuration`) -/

/-- One per-domain configuration mapping as iterated by
`store_index_configuration`: entry name paired with `(processor, params)`
when the entry is a dict containing a `processor` key, `none` otherwise. -/
def DomainConfig : Type := List (String × Option (String × List (String × ℤ)))

/-- The `acoustic_indices` section of a configuration file. -/
structure AcousticConfig where
  spectral : DomainConfig
  temporal : DomainConfig

/-- `INSERT OR IGNORE INTO index_configurations` with
`UNIQUE(config_name, index_name, config_hash)` (database_manager.py lines
729-739). -/
def insertOrIgnoreConfig (tbl : List ConfigRow) (r : ConfigRow) :
    List ConfigRow :=
  if tbl.any (fun x => decide (x.config_name = r.config_name
      ∧ x.index_name = r.index_name ∧ x.config_hash = r.config_hash)) then tbl
  else tbl ++ [r]

/-- One iteration of the per-domain loop of `store_index_configuration`
(database_manager.py lines 710-739): skip the `chunk_duration_sec` key and
entries that are not processor dicts; otherwise insert-or-ignore a row whose
fragment and hash come from the JSON serialisation (`ser`) and SHA-256
(`hash`), both abstract parameters of the model. -/
def configStep (ser hash : String → List (String × ℤ) → String → String)
    (configName ptype : String) (tbl : List ConfigRow)
    (e : String × Option (String × List (String × ℤ))) : List ConfigRow :=
  if e.1 = "chunk_duration_sec" then tbl
  else
    match e.2 with
    | none => tbl
    | some pp =>
      insertOrIgnoreConfig tbl
        { config_name := configName, index_name := e.1, processor_name := pp.1,
          config_fragment := ser pp.1 pp.2 ptype,
          config_hash := hash pp.1 pp.2 ptype }

/-- Translated from `DatabaseManager.store_index_configuration`
(database_manager.py lines 686-782): process the spectral entries, then the
temporal entries. -/
def store_index_configuration
    (ser hash : String → List (String × ℤ) → String → String)
    (tbl : List ConfigRow) (configName : String) (cfg : AcousticConfig) :
    List ConfigRow :=
  cfg.temporal.foldl (configStep ser hash configName "temporal")
    (cfg.spectral.foldl (configStep ser hash configName "spectral") tbl)

/-! ## The sharded temporal driver (`process_temporal_files`) -/

/-- End-of-run counters of `process_temporal_files`
(process_acoustic_indices.py lines 246-248 and 362): the function returns
`(created, exists, errors)` and nothing else. -/
structure RunCounts where
  created : ℕ
  existing : ℕ
  errors : ℕ
deriving DecidableEq

/-- External capabilities of one temporal run: per-file lock contention, the
decoded duration of each WAV file, the computed index values and chunk
timestamps (the maad feature routines are outside the verified core), the
configured expected file duration, and the enabled index names. -/
structure TemporalRunEnv where
  locked : String → Bool
  durationOf : String → ℚ
  dataOf : String → List (String × List ℚ)
  tsOf : String → List ℚ
  fileDurationSec : ℚ
  expectedIndices : List String

/-- `UPDATE audio_files SET processing_status = 'skipped' WHERE filepath = ?`
(process_acoustic_indices.py lines 329-332). -/
def markSkipped (afs : List AudioFileRow) (fp : String) : List AudioFileRow :=
  afs.map (fun a => if a.filepath = fp then
    { a with processing_status := "skipped" } else a)

/-- One iteration of the per-file loop of `process_temporal_files`
(process_acoustic_indices.py lines 275-356): lock check, preloaded existence
check, dry-run short-circuit, then the duration gate and store.  Exceptions
from the store propagate (the loop has no try/except around them). -/
def processOneTemporal (env : TemporalRunEnv)
    (bulk : List (String × List (String × List ℚ))) (force dryRun : Bool)
    (acc : DBState × RunCounts) (f : String) :
    Except String (DBState × RunCounts) :=
  if env.locked f then Except.ok acc
  else
    if (bulkGet bulk f).isEmpty = false ∧ force = false then
      Except.ok (acc.1, { acc.2 with existing := acc.2.existing + 1 })
    else if dryRun then
      Except.ok (acc.1, { acc.2 with created := acc.2.created + 1 })
    else
      match durationOutcome (env.durationOf f) env.fileDurationSec
          temporalToleranceSec with
      | TemporalOutcome.skipped =>
        Except.ok ({ acc.1 with audioFiles := markSkipped acc.1.audioFiles f },
          { acc.2 with errors := acc.2.errors + 1 })
      | TemporalOutcome.accepted =>
        (store_indices acc.1 f "temporal" (env.dataOf f) (env.tsOf f)).map
          (fun st => (st, { acc.2 with created := acc.2.created + 1 }))

/-- Translated from `process_temporal_files` (process_acoustic_indices.py
lines 222-362): bulk-preload the existing indices for the whole shard from
the initial state, then fold the per-file loop. -/
def process_temporal_files (env : TemporalRunEnv) (st : DBState)
    (files : List String) (force dryRun : Bool) :
    Except String (DBState × RunCounts) :=
  files.foldlM
    (processOneTemporal env
      (get_indices_for_files_bulk st files "temporal" (some env.expectedIndices))
      force dryRun)
    (st, { created := 0, existing := 0, errors := 0 })

/-- A full temporal run as invoked by `main`: `load_config` stores the
configuration registry rows (process_acoustic_indices.py lines 74-89), then
the shard is processed. -/
def run_temporal (ser hash : String → List (String × ℤ) → String → String)
    (env : TemporalRunEnv) (configName : String) (acfg : AcousticConfig)
    (st : DBState) (files : List String) (force dryRun : Bool) :
    Except String (DBState × RunCounts) :=
  process_temporal_files env
    { st with
      configs := (store_index_configuration ser hash st.configs configName acfg) }
    files force dryRun

/-! ## Claim C2: dry-run and the store -/

lemma processOneTemporal_dryRun (env : TemporalRunEnv)
    (bulk : List (String × List (String × List ℚ))) (force : Bool)
    (st : DBState) (c : RunCounts) (f : String) :
    ∃ c', processOneTemporal env bulk force true (st, c) f = Except.ok (st, c') := by
  unfold processOneTemporal
  by_cases h1 : env.locked f
  · rw [if_pos h1]
    exact ⟨c, rfl⟩
  · rw [if_neg h1]
    by_cases h2 : (bulkGet bulk f).isEmpty = false ∧ force = false
    · rw [if_pos h2]
      exact ⟨_, rfl⟩
    · rw [if_neg h2, if_pos rfl]
      exact ⟨_, rfl⟩

lemma foldlM_processOneTemporal_dryRun (env : TemporalRunEnv)
    (bulk : List (String × List (String × List ℚ))) (force : Bool) :
    ∀ (files : List String) (st : DBState) (c : RunCounts),
      ∃ c', files.foldlM (processOneTemporal env bulk force true) (st, c)
        = Except.ok (st, c') := by
  intro files
  induction files with
  | nil => intro st c; exact ⟨c, rfl⟩
  | cons f fs ih =>
    intro st c
    obtain ⟨c₁, h₁⟩ := processOneTemporal_dryRun env bulk force st c f
    obtain ⟨c₂, h₂⟩ := ih st c₁
    refine ⟨c₂, ?_⟩
    rw [List.foldlM_cons, h₁]
    exact h₂

/-- C2 (amended): a dry run never mutates `acoustic_indices_core` or
`audio_files` (no index rows stored, no status flags written) and never
fails, but it does register the configuration: the run still performs the
insert-or-ignore writes into `index_configurations`, exactly as a normal run
would. -/
theorem dry_run_frame (ser hash : String → List (String × ℤ) → String → String)
    (env : TemporalRunEnv) (configName : String) (acfg : AcousticConfig)
    (st : DBState) (files : List String) (force : Bool) :
    ∃ (st' : DBState) (c : RunCounts),
      run_temporal ser hash env configName acfg st files force true
        = Except.ok (st', c)
      ∧ st'.core = st.core
      ∧ st'.audioFiles = st.audioFiles
      ∧ st'.configs = store_index_configuration ser hash st.configs
          configName acfg := by
  obtain ⟨c, hc⟩ := foldlM_processOneTemporal_dryRun env
    (get_indices_for_files_bulk
      { st with
        configs := (store_index_configuration ser hash st.configs configName acfg) }
      files "temporal" (some env.expectedIndices))
    force files
    { st with
      configs := (store_index_configuration ser hash st.configs configName acfg) }
    { created := 0, existing := 0, errors := 0 }
  refine ⟨{ st with
      configs := (store_index_configuration ser hash st.configs configName acfg) },
    c, ?_, rfl, rfl, rfl⟩
  unfold run_temporal process_temporal_files
  exact hc

/-- The database state for the C2 counterexample: empty configuration
registry. -/
def dryRunSt : DBState := { audioFiles := [], core := [], configs := [] }

/-- A trivial run environment (no locks, nominal durations, no data). -/
def dryRunEnv : TemporalRunEnv :=
  { locked := fun _ => false, durationOf := fun _ => 900,
    dataOf := fun _ => [], tsOf := fun _ => [],
    fileDurationSec := 900, expectedIndices := [] }

/-- A configuration with one temporal named-index entry. -/
def dryRunAcfg : AcousticConfig :=
  { spectral := [],
    temporal := [("temporal_entropy", some ("temporal_entropy", []))] }

/-- A stand-in for the JSON serialisation / SHA-256 hash of a config
fragment. -/
def constHash : String → List (String × ℤ) → String → String := fun _ _ _ => "h"

/-- C2 counterexample: a dry run is not mutation-free.  Invoking the run with
the dry-run flag on a database whose `index_configurations` table is empty
still inserts the configuration row (`load_config` runs
`store_index_configuration` before the dry-run flag is ever consulted), so
after the run that table differs from its contents before the run. -/
theorem dry_run_mutates_store_counterexample :
    run_temporal constHash constHash dryRunEnv "config.yaml" dryRunAcfg
        dryRunSt [] false true
      = Except.ok
          ({ audioFiles := [], core := [],
             configs := [{ config_name := "config.yaml",
                           index_name := "temporal_entropy",
                           processor_name := "temporal_entropy",
                           config_fragment := "h", config_hash := "h" }] },
           { created := 0, existing := 0, errors := 0 })
    ∧ [{ config_name := "config.yaml", index_name := "temporal_entropy",
         processor_name := "temporal_entropy", config_fragment := "h",
         config_hash := "h" : ConfigRow }] ≠ dryRunSt.configs :=
  ⟨rfl, by decide⟩

/-! ## Claim C4: duration-tolerance failures in the end-of-run counts -/

lemma markSkipped_status (afs : List AudioFileRow) (f : String) :
    ∀ a ∈ markSkipped afs f, a.filepath = f → a.processing_status = "skipped" := by
  intro a ha hf
  unfold markSkipped at ha
  rcases List.mem_map.mp ha with ⟨b, hb, he⟩
  by_cases hbf : b.filepath = f
  · rw [if_pos hbf] at he
    rw [← he]
  · rw [if_neg hbf] at he
    exact absurd (he ▸ hf) hbf

/-- C4 (amended): a file whose duration is outside tolerance (unlocked, with
no preexisting indices) is marked with the status flag `'skipped'` on its
`audio_files` row and its index rows are not touched — but in the end-of-run
counts it is tallied in the `errors` counter (the counters returned by the
run are only `(created, exists, errors)`; there is no separate skipped
count). -/
theorem duration_skip_counted_as_error (env : TemporalRunEnv) (st : DBState)
    (f : String) (force : Bool)
    (h1 : env.locked f = false)
    (h2 : bulkGet (get_indices_for_files_bulk st [f] "temporal"
            (some env.expectedIndices)) f = [])
    (h3 : durationOutcome (env.durationOf f) env.fileDurationSec
            temporalToleranceSec = TemporalOutcome.skipped) :
    process_temporal_files env st [f] force false
      = Except.ok ({ st with audioFiles := markSkipped st.audioFiles f },
          { created := 0, existing := 0, errors := 1 })
    ∧ ∀ a ∈ markSkipped st.audioFiles f, a.filepath = f →
        a.processing_status = "skipped" := by
  refine ⟨?_, markSkipped_status st.audioFiles f⟩
  have hstep : processOneTemporal env
      (get_indices_for_files_bulk st [f] "temporal" (some env.expectedIndices))
      force false (st, { created := 0, existing := 0, errors := 0 }) f
      = Except.ok ({ st with audioFiles := markSkipped st.audioFiles f },
          { created := 0, existing := 0, errors := 1 }) := by
    unfold processOneTemporal
    rw [if_neg (by rw [h1]; exact Bool.false_ne_true),
        if_neg (by rw [h2]; simp), if_neg Bool.false_ne_true, h3]
  unfold process_temporal_files
  rw [List.foldlM_cons, hstep]
  rfl

/-- The environment for the C4 counterexample and witness: one unlocked file
whose decoded duration (800 s) is far outside the expected 900 ± 2 s. -/
def skipRunEnv : TemporalRunEnv :=
  { locked := fun _ => false, durationOf := fun _ => 800,
    dataOf := fun _ => [], tsOf := fun _ => [],
    fileDurationSec := 900, expectedIndices := ["temporal_entropy"] }

/-- The database for the C4 counterexample: one audio file, no indices. -/
def skipRunSt : DBState :=
  { audioFiles := [{ id := 1, filepath := "/rec/G.WAV", filename := "G.WAV",
                     processing_status := "" }],
    core := [], configs := [] }

lemma skipRunEnv_duration_skipped :
    durationOutcome (skipRunEnv.durationOf "/rec/G.WAV")
        skipRunEnv.fileDurationSec temporalToleranceSec
      = TemporalOutcome.skipped := by
  show durationOutcome 800 900 2 = TemporalOutcome.skipped
  unfold durationOutcome
  rw [if_pos]
  rw [show (800 : ℚ) - 900 = -100 by norm_num, abs_neg,
      abs_of_nonneg (by norm_num)]
  norm_num

/-- C4 counterexample: the claim fails as stated.  Processing one
out-of-tolerance file yields end-of-run counts
`(created, exists, errors) = (0, 0, 1)`: the duration-tolerance failure is
reported in the `errors` counter (the claim requires it to be reported as
`skipped`, not as an error), even though the file itself is marked with the
`'skipped'` status flag. -/
theorem duration_skip_counterexample :
    process_temporal_files skipRunEnv skipRunSt ["/rec/G.WAV"] false false
      = Except.ok
          ({ audioFiles := [{ id := 1, filepath := "/rec/G.WAV",
                              filename := "G.WAV",
                              processing_status := "skipped" }],
             core := [], configs := [] },
           { created := 0, existing := 0, errors := 1 }) := by
  have hstep : processOneTemporal skipRunEnv
      (get_indices_for_files_bulk skipRunSt ["/rec/G.WAV"] "temporal"
        (some skipRunEnv.expectedIndices))
      false false (skipRunSt, { created := 0, existing := 0, errors := 0 })
      "/rec/G.WAV"
      = Except.ok
          ({ audioFiles := [{ id := 1, filepath := "/rec/G.WAV",
                              filename := "G.WAV",
                              processing_status := "skipped" }],
             core := [], configs := [] },
           { created := 0, existing := 0, errors := 1 }) := by
    unfold processOneTemporal
    rw [if_neg (by decide), if_neg (by decide), if_neg Bool.false_ne_true,
        skipRunEnv_duration_skipped]
    rfl
  unfold process_temporal_files
  rw [List.foldlM_cons, hstep]
  rfl

/-- Witness for `duration_skip_counted_as_error` at the concrete input of the
counterexample scenario. -/
theorem duration_skip_counted_as_error_witness :
    (skipRunEnv.locked "/rec/G.WAV" = false
     ∧ bulkGet (get_indices_for_files_bulk skipRunSt ["/rec/G.WAV"] "temporal"
         (some skipRunEnv.expectedIndices)) "/rec/G.WAV" = []
     ∧ durationOutcome (skipRunEnv.durationOf "/rec/G.WAV")
         skipRunEnv.fileDurationSec temporalToleranceSec
       = TemporalOutcome.skipped)
    ∧ (process_temporal_files skipRunEnv skipRunSt ["/rec/G.WAV"] false false
        = Except.ok
            ({ skipRunSt with
               audioFiles := markSkipped skipRunSt.audioFiles "/rec/G.WAV" },
             { created := 0, existing := 0, errors := 1 })
      ∧ ∀ a ∈ markSkipped skipRunSt.audioFiles "/rec/G.WAV",
          a.filepath = "/rec/G.WAV" → a.processing_status = "skipped") :=
  ⟨⟨rfl, by decide, skipRunEnv_duration_skipped⟩,
    duration_skip_counted_as_error skipRunEnv skipRunSt "/rec/G.WAV" false
      rfl (by decide) skipRunEnv_duration_skipped⟩

/-! ## Claim C6: bulk-vs-single retrieval.  Order and key lemmas -/

lemma lexLe_refl : ∀ l : List ℕ, lexLe l l = true := by
  intro l
  induction l with
  | nil => rfl
  | cons a s ih => simp [lexLe, ih]

lemma lexLe_total : ∀ a b : List ℕ, lexLe a b = true ∨ lexLe b a = true := by
  intro a
  induction a with
  | nil => intro b; exact Or.inl rfl
  | cons x s ih =>
    intro b
    cases b with
    | nil => exact Or.inr rfl
    | cons y t =>
      by_cases hxy : x < y
      · exact Or.inl (by simp [lexLe, hxy])
      · by_cases hyx : y < x
        · exact Or.inr (by simp [lexLe, hyx])
        · rcases ih t with h | h
          · exact Or.inl (by simp [lexLe, hxy, hyx, h])
          · exact Or.inr (by simp [lexLe, hxy, hyx, h])

lemma lexLe_antisymm : ∀ a b : List ℕ, lexLe a b = true → lexLe b a = true →
    a = b := by
  intro a
  induction a with
  | nil =>
    intro b h₁ h₂
    cases b with
    | nil => rfl
    | cons y t => exact absurd h₂ (by simp [lexLe])
  | cons x s ih =>
    intro b h₁ h₂
    cases b with
    | nil => exact absurd h₁ (by simp [lexLe])
    | cons y t =>
      by_cases hxy : x < y
      · have hyx : ¬ y < x := by omega
        simp [lexLe, hxy, hyx] at h₂
      · by_cases hyx : y < x
        · simp [lexLe, hxy, hyx] at h₁
        · have hx : x = y := by omega
          subst hx
          simp only [lexLe, if_neg (lt_irrefl x)] at h₁ h₂
          rw [ih t h₁ h₂]

lemma lexLe_trans : ∀ a b c : List ℕ, lexLe a b = true → lexLe b c = true →
    lexLe a c = true := by
  intro a
  induction a with
  | nil => intro b c _ _; rfl
  | cons x s ih =>
    intro b c h₁ h₂
    cases b with
    | nil => exact absurd h₁ (by simp [lexLe])
    | cons y t =>
      cases c with
      | nil => exact absurd h₂ (by simp [lexLe])
      | cons z u =>
        simp only [lexLe] at h₁ h₂ ⊢
        by_cases hxy : x < y <;> by_cases hyz : y < z
        · have hxz : x < z := Nat.lt_trans hxy hyz
          simp [hxz]
        · have hzy : ¬ z < y := by
            intro hzy
            simp [hyz, hzy] at h₂
          have hyz2 : y = z := by omega
          subst hyz2
          simp [hxy]
        · have hyx : ¬ y < x := by
            intro hyx
            simp [hxy, hyx] at h₁
          have hxy2 : x = y := by omega
          subst hxy2
          simp [hyz]
        · have hyx : ¬ y < x := by
            intro hyx
            simp [hxy, hyx] at h₁
          have hzy : ¬ z < y := by
            intro hzy
            simp [hyz, hzy] at h₂
          have hxy2 : x = y := by omega
          have hyz2 : y = z := by omega
          subst hxy2
          subst hyz2
          simp only [if_neg (lt_irrefl x)] at h₁ h₂ ⊢
          exact ih t u h₁ h₂

lemma strNatKey_inj {s t : String} (h : strNatKey s = strNatKey t) : s = t := by
  unfold strNatKey at h
  have hc : Function.Injective Char.toNat := by
    intro a b hab
    rw [← Char.ofNat_toNat a, hab, Char.ofNat_toNat]
  have h2 : s.toList = t.toList := List.map_injective_iff.mpr hc h
  cases s
  cases t
  simp only [String.toList] at h2
  rw [h2]

lemma tripleLeB_iff (a b : String × ℕ × ℚ) : tripleLeB a b = true ↔
    ((lexLe (strNatKey a.1) (strNatKey b.1) = true
      ∧ ¬ lexLe (strNatKey b.1) (strNatKey a.1) = true)
     ∨ (strNatKey a.1 = strNatKey b.1 ∧ a.2.1 ≤ b.2.1)) := by
  unfold tripleLeB
  by_cases h1 : lexLe (strNatKey a.1) (strNatKey b.1) = true
  · by_cases h2 : lexLe (strNatKey b.1) (strNatKey a.1) = true
    · have hk : strNatKey a.1 = strNatKey b.1 := lexLe_antisymm _ _ h1 h2
      simp [h1, h2, hk, lexLe_refl]
    · simp [h1, h2]
  · have hk : ¬ strNatKey a.1 = strNatKey b.1 := by
      intro hk
      exact h1 (hk ▸ lexLe_refl (strNatKey a.1))
    simp [h1, hk]

lemma tripleLeB_total (a b : String × ℕ × ℚ) :
    tripleLeB a b = true ∨ tripleLeB b a = true := by
  rcases lexLe_total (strNatKey a.1) (strNatKey b.1) with h | h
  · by_cases h2 : lexLe (strNatKey b.1) (strNatKey a.1) = true
    · have hk : strNatKey a.1 = strNatKey b.1 := lexLe_antisymm _ _ h h2
      rcases Nat.le_total a.2.1 b.2.1 with hc | hc
      · exact Or.inl ((tripleLeB_iff a b).mpr (Or.inr ⟨hk, hc⟩))
      · exact Or.inr ((tripleLeB_iff b a).mpr (Or.inr ⟨hk.symm, hc⟩))
    · exact Or.inl ((tripleLeB_iff a b).mpr (Or.inl ⟨h, h2⟩))
  · by_cases h2 : lexLe (strNatKey a.1) (strNatKey b.1) = true
    · have hk : strNatKey b.1 = strNatKey a.1 := lexLe_antisymm _ _ h h2
      rcases Nat.le_total a.2.1 b.2.1 with hc | hc
      · exact Or.inl ((tripleLeB_iff a b).mpr (Or.inr ⟨hk.symm, hc⟩))
      · exact Or.inr ((tripleLeB_iff b a).mpr (Or.inr ⟨hk, hc⟩))
    · exact Or.inr ((tripleLeB_iff b a).mpr (Or.inl ⟨h, h2⟩))

lemma tripleLeB_trans (a b c : String × ℕ × ℚ) (h₁ : tripleLeB a b = true)
    (h₂ : tripleLeB b c = true) : tripleLeB a c = true := by
  rcases (tripleLeB_iff a b).mp h₁ with ⟨hab, hnba⟩ | ⟨hab, hcab⟩ <;>
    rcases (tripleLeB_iff b c).mp h₂ with ⟨hbc, hncb⟩ | ⟨hbc, hcbc⟩
  · refine (tripleLeB_iff a c).mpr (Or.inl ⟨lexLe_trans _ _ _ hab hbc, ?_⟩)
    intro hca
    exact hnba (lexLe_trans _ _ _ hbc hca)
  · refine (tripleLeB_iff a c).mpr (Or.inl ⟨hbc ▸ hab, ?_⟩)
    intro hca
    exact hnba (hbc ▸ hca)
  · refine (tripleLeB_iff a c).mpr (Or.inl ⟨hab ▸ hbc, ?_⟩)
    intro hca
    exact hncb (hab ▸ hca)
  · exact (tripleLeB_iff a c).mpr (Or.inr ⟨hab.trans hbc, hcab.trans hcbc⟩)

lemma tripleLeB_key_eq (a b : String × ℕ × ℚ) (h₁ : tripleLeB a b = true)
    (h₂ : tripleLeB b a = true) : a.1 = b.1 ∧ a.2.1 = b.2.1 := by
  rcases (tripleLeB_iff a b).mp h₁ with ⟨hab, hnba⟩ | ⟨hab, hcab⟩
  · rcases (tripleLeB_iff b a).mp h₂ with ⟨hba, _⟩ | ⟨hba, _⟩
    · exact absurd hba hnba
    · exact absurd (hba ▸ lexLe_refl (strNatKey b.1)) hnba
  · rcases (tripleLeB_iff b a).mp h₂ with ⟨hba, hnab⟩ | ⟨_, hcba⟩
    · exact absurd (hab ▸ lexLe_refl (strNatKey b.1)) hnab
    · exact ⟨strNatKey_inj hab, Nat.le_antisymm hcab hcba⟩

lemma quadLeB_iff (a b : String × String × ℕ × ℚ) : quadLeB a b = true ↔
    ((lexLe (strNatKey a.1) (strNatKey b.1) = true
      ∧ ¬ lexLe (strNatKey b.1) (strNatKey a.1) = true)
     ∨ (strNatKey a.1 = strNatKey b.1 ∧ tripleLeB a.2 b.2 = true)) := by
  unfold quadLeB
  by_cases h1 : lexLe (strNatKey a.1) (strNatKey b.1) = true
  · by_cases h2 : lexLe (strNatKey b.1) (strNatKey a.1) = true
    · have hk : strNatKey a.1 = strNatKey b.1 := lexLe_antisymm _ _ h1 h2
      simp [h1, h2, hk, lexLe_refl]
    · simp [h1, h2]
  · have hk : ¬ strNatKey a.1 = strNatKey b.1 := by
      intro hk
      exact h1 (hk ▸ lexLe_refl (strNatKey a.1))
    simp [h1, hk]

lemma quadLeB_total (a b : String × String × ℕ × ℚ) :
    quadLeB a b = true ∨ quadLeB b a = true := by
  rcases lexLe_total (strNatKey a.1) (strNatKey b.1) with h | h
  · by_cases h2 : lexLe (strNatKey b.1) (strNatKey a.1) = true
    · have hk : strNatKey a.1 = strNatKey b.1 := lexLe_antisymm _ _ h h2
      rcases tripleLeB_total a.2 b.2 with hc | hc
      · exact Or.inl ((quadLeB_iff a b).mpr (Or.inr ⟨hk, hc⟩))
      · exact Or.inr ((quadLeB_iff b a).mpr (Or.inr ⟨hk.symm, hc⟩))
    · exact Or.inl ((quadLeB_iff a b).mpr (Or.inl ⟨h, h2⟩))
  · by_cases h2 : lexLe (strNatKey a.1) (strNatKey b.1) = true
    · have hk : strNatKey b.1 = strNatKey a.1 := lexLe_antisymm _ _ h h2
      rcases tripleLeB_total a.2 b.2 with hc | hc
      · exact Or.inl ((quadLeB_iff a b).mpr (Or.inr ⟨hk.symm, hc⟩))
      · exact Or.inr ((quadLeB_iff b a).mpr (Or.inr ⟨hk, hc⟩))
    · exact Or.inr ((quadLeB_iff b a).mpr (Or.inl ⟨h, h2⟩))

lemma quadLeB_trans (a b c : String × String × ℕ × ℚ)
    (h₁ : quadLeB a b = true) (h₂ : quadLeB b c = true) :
    quadLeB a c = true := by
  rcases (quadLeB_iff a b).mp h₁ with ⟨hab, hnba⟩ | ⟨hab, hcab⟩ <;>
    rcases (quadLeB_iff b c).mp h₂ with ⟨hbc, hncb⟩ | ⟨hbc, hcbc⟩
  · refine (quadLeB_iff a c).mpr (Or.inl ⟨lexLe_trans _ _ _ hab hbc, ?_⟩)
    intro hca
    exact hnba (lexLe_trans _ _ _ hbc hca)
  · refine (quadLeB_iff a c).mpr (Or.inl ⟨hbc ▸ hab, ?_⟩)
    intro hca
    exact hnba (hbc ▸ hca)
  · refine (quadLeB_iff a c).mpr (Or.inl ⟨hab ▸ hbc, ?_⟩)
    intro hca
    exact hncb (hab ▸ hca)
  · exact (quadLeB_iff a c).mpr
      (Or.inr ⟨hab.trans hbc, tripleLeB_trans _ _ _ hcab hcbc⟩)

/-- The sort key of a quadruple row, `(filepath, index_name, chunk_index)`,
which is unique in a well-formed join result. -/
def quadKey (q : String × String × ℕ × ℚ) : String × String × ℕ :=
  (q.1, q.2.1, q.2.2.1)

lemma quadLeB_key_eq (a b : String × String × ℕ × ℚ)
    (h₁ : quadLeB a b = true) (h₂ : quadLeB b a = true) :
    quadKey a = quadKey b := by
  rcases (quadLeB_iff a b).mp h₁ with ⟨hab, hnba⟩ | ⟨hab, hcab⟩
  · rcases (quadLeB_iff b a).mp h₂ with ⟨hba, _⟩ | ⟨hba, _⟩
    · exact absurd hba hnba
    · exact absurd (hba ▸ lexLe_refl (strNatKey b.1)) hnba
  · rcases (quadLeB_iff b a).mp h₂ with ⟨hba, hnab⟩ | ⟨_, hcba⟩
    · exact absurd (hab ▸ lexLe_refl (strNatKey b.1)) hnab
    · obtain ⟨hn, hc⟩ := tripleLeB_key_eq a.2 b.2 hcab hcba
      unfold quadKey
      rw [strNatKey_inj hab, hn, hc]

instance : IsTotal (String × ℕ × ℚ) tripleLe := ⟨tripleLeB_total⟩

instance : IsTrans (String × ℕ × ℚ) tripleLe := ⟨tripleLeB_trans⟩

instance : IsTotal (String × String × ℕ × ℚ) quadLe := ⟨quadLeB_total⟩

instance : IsTrans (String × String × ℕ × ℚ) quadLe := ⟨quadLeB_trans⟩

/-- Two sorted permutations of the same list agree when the sort keys are
distinct: total order on rows, key-antisymmetry, and key-nodup force
equality. -/
lemma sorted_perm_eq_of_nodup_keys {α β : Type} (κ : α → β) (r : α → α → Prop)
    (antikey : ∀ a b, r a b → r b a → κ a = κ b) :
    ∀ l₁ l₂ : List α, l₁.Perm l₂ → l₁.Sorted r → l₂.Sorted r →
      (l₁.map κ).Nodup → l₁ = l₂ := by
  intro l₁
  induction l₁ with
  | nil =>
    intro l₂ hp _ _ _
    exact (List.Perm.nil_eq hp).symm ▸ rfl
  | cons x t ih =>
    intro l₂ hp hs₁ hs₂ hnd
    cases l₂ with
    | nil => exact absurd hp.symm (by simp)
    | cons y u =>
      have hxy : x = y := by
        by_contra hne
        have hyin : y ∈ x :: t := hp.symm.subset (List.mem_cons_self y u)
        have hxin : x ∈ y :: u := hp.subset (List.mem_cons_self x t)
        have hyt : y ∈ t := by
          rcases List.mem_cons.mp hyin with h | h
          · exact absurd h.symm hne
          · exact h
        have hxu : x ∈ u := by
          rcases List.mem_cons.mp hxin with h | h
          · exact absurd h hne
          · exact h
        have hrxy : r x y := (List.sorted_cons.mp hs₁).1 y hyt
        have hryx : r y x := (List.sorted_cons.mp hs₂).1 x hxu
        have hkey : κ x = κ y := antikey x y hrxy hryx
        have : κ x ∉ t.map κ := (List.nodup_cons.mp (by simpa using hnd)).1
        exact this (hkey ▸ List.mem_map.mpr ⟨y, hyt, rfl⟩)
      subst hxy
      have ht : t = u := ih u (hp.cons_inv) (List.sorted_cons.mp hs₁).2
        (List.sorted_cons.mp hs₂).2 (List.nodup_cons.mp (by simpa using hnd)).2
      rw [ht]

lemma dictGet_map_set {α : Type} (k : String) (v : α) :
    ∀ d : List (String × α), d.any (fun p => decide (p.1 = k)) = true →
      dictGet? (d.map (fun p => if p.1 = k then (k, v) else p)) k = some v := by
  intro d
  induction d with
  | nil => intro h; exact absurd h (by simp)
  | cons q d ih =>
    intro h
    by_cases hq : q.1 = k
    · unfold dictGet?
      rw [List.map_cons, if_pos hq, List.find?_cons_of_pos _ (by simp)]
      rfl
    · have h' : d.any (fun p => decide (p.1 = k)) = true := by
        simpa [hq] using h
      unfold dictGet?
      rw [List.map_cons, if_neg hq, List.find?_cons_of_neg _ (by simp [hq])]
      exact ih h'

lemma dictGet_append_single_same {α : Type} (k : String) (v : α) :
    ∀ d : List (String × α), d.any (fun p => decide (p.1 = k)) = false →
      dictGet? (d ++ [(k, v)]) k = some v := by
  intro d
  induction d with
  | nil =>
    intro _
    unfold dictGet?
    rw [List.nil_append, List.find?_cons_of_pos _ (by simp)]
    rfl
  | cons q d ih =>
    intro h
    have hq : ¬ q.1 = k := by
      intro hq
      simp [hq] at h
    have h' : d.any (fun p => decide (p.1 = k)) = false := by
      simpa [hq] using h
    unfold dictGet?
    rw [List.cons_append, List.find?_cons_of_neg _ (by simp [hq])]
    exact ih h'

lemma dictGet_dictSet_same {α : Type} (d : List (String × α)) (k : String)
    (v : α) : dictGet? (dictSet d k v) k = some v := by
  unfold dictSet
  by_cases h : d.any (fun p => decide (p.1 = k)) = true
  · rw [if_pos h]
    exact dictGet_map_set k v d h
  · rw [if_neg h]
    exact dictGet_append_single_same k v d (Bool.not_eq_true _ ▸ Bool.of_not_eq_true h)

lemma dictGet_dictSet_other {α : Type} (d : List (String × α)) (k k' : String)
    (v : α) (h : k' ≠ k) : dictGet? (dictSet d k v) k' = dictGet? d k' := by
  unfold dictSet
  by_cases hany : d.any (fun p => decide (p.1 = k)) = true
  · rw [if_pos hany]
    clear hany
    induction d with
    | nil => rfl
    | cons q d ih =>
      by_cases hq : q.1 = k
      · have hq' : ¬ q.1 = k' := fun he => h (he.symm.trans hq)
        unfold dictGet?
        rw [List.map_cons, if_pos hq,
            List.find?_cons_of_neg _ (by simp [Ne.symm h]),
            List.find?_cons_of_neg _ (by simp [hq'])]
        exact ih
      · by_cases hq' : q.1 = k'
        · unfold dictGet?
          rw [List.map_cons, if_neg hq, List.find?_cons_of_pos _ (by simp [hq']),
              List.find?_cons_of_pos _ (by simp [hq'])]
        · unfold dictGet?
          rw [List.map_cons, if_neg hq, List.find?_cons_of_neg _ (by simp [hq']),
              List.find?_cons_of_neg _ (by simp [hq'])]
          exact ih
  · rw [if_neg hany]
    clear hany
    induction d with
    | nil =>
      unfold dictGet?
      rw [List.nil_append, List.find?_cons_of_neg _ (by simp [Ne.symm h])]
    | cons q d ih =>
      by_cases hq' : q.1 = k'
      · unfold dictGet?
        rw [List.cons_append, List.find?_cons_of_pos _ (by simp [hq']),
            List.find?_cons_of_pos _ (by simp [hq'])]
      · unfold dictGet?
        rw [List.cons_append, List.find?_cons_of_neg _ (by simp [hq']),
            List.find?_cons_of_neg _ (by simp [hq'])]
        exact ih

lemma dictSet_fresh {α : Type} (d : List (String × α)) (k : String) (v : α)
    (h : ¬ k ∈ d.map Prod.fst) : dictSet d k v = d ++ [(k, v)] := by
  unfold dictSet
  rw [if_neg]
  intro hany
  rcases List.any_eq_true.mp hany with ⟨p, hp, hpk⟩
  simp only [decide_eq_true_eq] at hpk
  exact h (hpk ▸ List.mem_map.mpr ⟨p, hp, rfl⟩)

lemma foldl_dictSet_of_nodup {α : Type} :
    ∀ (l acc : List (String × α)), (((acc ++ l).map Prod.fst)).Nodup →
      l.foldl (fun d p => dictSet d p.1 p.2) acc = acc ++ l := by
  intro l
  induction l with
  | nil => intro acc _; exact (List.append_nil acc).symm ▸ rfl
  | cons p l ih =>
    intro acc hnd
    have hfresh : ¬ p.1 ∈ acc.map Prod.fst := by
      intro hin
      rw [List.map_append] at hnd
      rcases List.mem_map.mp hin with ⟨q, hq, hqk⟩
      have := List.disjoint_of_nodup_append hnd
      exact this hin (by simp)
    rw [List.foldl_cons, dictSet_fresh acc p.1 p.2 hfresh]
    have hnd' : (((acc ++ [p]) ++ l).map Prod.fst).Nodup := by
      rw [List.append_assoc, List.singleton_append]
      exact hnd
    rw [ih (acc ++ [p]) hnd', List.append_assoc, List.singleton_append]

/-- The `(index_name, value)` projection of a joined row. -/
def pairOfQuad (x : String × String × ℕ × ℚ) : String × ℚ := (x.2.1, x.2.2.2)

/-- Folding a flush sequence into the outer per-file dict under one file
key. -/
def dalOrig (pm : List (String × String)) (w : String)
    (acc : List (String × List (String × List ℚ)))
    (G : List (String × List ℚ)) : List (String × List (String × List ℚ)) :=
  G.foldl (fun a p => outerSet a (origOf pm w) p.1 p.2) acc

/-- The flush sequence produced by one same-filepath block of joined rows. -/
def flushBlock : List (String × String × ℕ × ℚ) → List (String × List ℚ)
  | [] => []
  | x :: rows => flushSeq (some (x.2.1, [x.2.2.2])) (rows.map pairOfQuad)

lemma bulkAux_nil_none (pm : List (String × String))
    (acc : List (String × List (String × List ℚ))) :
    bulkAux pm none none [] acc [] = acc := rfl

lemma bulkAux_cons_new_file_flush (pm : List (String × String))
    (cf ci : String) (curVals : List ℚ)
    (acc : List (String × List (String × List ℚ)))
    (w n : String) (c : ℕ) (v : ℚ) (rest : List (String × String × ℕ × ℚ))
    (h : cf ≠ w) :
    bulkAux pm (some cf) (some ci) curVals acc ((w, n, c, v) :: rest)
      = bulkAux pm (some w) (some n) [v]
          (outerSet acc (origOf pm cf) ci curVals) rest := by
  simp only [bulkAux]
  rw [if_pos (by simp [h])]

lemma bulkAux_cons_new_file_start (pm : List (String × String))
    (curVals : List ℚ) (acc : List (String × List (String × List ℚ)))
    (w n : String) (c : ℕ) (v : ℚ) (rest : List (String × String × ℕ × ℚ)) :
    bulkAux pm none none curVals acc ((w, n, c, v) :: rest)
      = bulkAux pm (some w) (some n) [v] acc rest := by
  simp only [bulkAux]
  rw [if_pos (by simp)]

lemma bulkAux_cons_same_file_new_idx (pm : List (String × String))
    (ci : String) (curVals : List ℚ)
    (acc : List (String × List (String × List ℚ)))
    (w n : String) (c : ℕ) (v : ℚ) (rest : List (String × String × ℕ × ℚ))
    (h : ci ≠ n) :
    bulkAux pm (some w) (some ci) curVals acc ((w, n, c, v) :: rest)
      = bulkAux pm (some w) (some n) [v]
          (outerSet acc (origOf pm w) ci curVals) rest := by
  simp only [bulkAux]
  rw [if_neg (by simp), if_pos (by simp [h])]

lemma bulkAux_cons_same_idx (pm : List (String × String)) (curVals : List ℚ)
    (acc : List (String × List (String × List ℚ)))
    (w n : String) (c : ℕ) (v : ℚ) (rest : List (String × String × ℕ × ℚ)) :
    bulkAux pm (some w) (some n) curVals acc ((w, n, c, v) :: rest)
      = bulkAux pm (some w) (some n) (curVals ++ [v]) acc rest := by
  simp only [bulkAux]
  rw [if_neg (by simp), if_neg (by simp)]

lemma bulkAux_block (pm : List (String × String)) (w : String) :
    ∀ (rows : List (String × String × ℕ × ℚ)) (n : String) (vals : List ℚ)
      (acc : List (String × List (String × List ℚ)))
      (rest : List (String × String × ℕ × ℚ)),
      (∀ x ∈ rows, x.1 = w) →
      (∀ y, rest.head? = some y → y.1 ≠ w) →
      bulkAux pm (some w) (some n) vals acc (rows ++ rest)
        = bulkAux pm none none []
            (dalOrig pm w acc (flushSeq (some (n, vals)) (rows.map pairOfQuad)))
            rest := by
  intro rows
  induction rows with
  | nil =>
    intro n vals acc rest _ hrest
    rw [List.nil_append]
    have hflush : flushSeq (some (n, vals)) (List.map pairOfQuad []) = [(n, vals)] := rfl
    rw [hflush]
    have hdal : dalOrig pm w acc [(n, vals)] = outerSet acc (origOf pm w) n vals := rfl
    rw [hdal]
    cases rest with
    | nil => rfl
    | cons y rest' =>
      obtain ⟨yw, yn, yc, yv⟩ := y
      have hyw : yw ≠ w := fun he => (hrest (yw, yn, yc, yv) rfl) (by simp [he])
      rw [bulkAux_cons_new_file_flush pm w n vals acc yw yn yc yv rest'
            (Ne.symm hyw),
          bulkAux_cons_new_file_start pm [] _ yw yn yc yv rest']
  | cons x rows' ih =>
    intro n vals acc rest hrows hrest
    obtain ⟨xw, xn, xc, xv⟩ := x
    have hxw : w = xw := (hrows (xw, xn, xc, xv) (List.mem_cons_self _ _)).symm
    subst hxw
    have hrows' : ∀ x ∈ rows', x.1 = w :=
      fun x hx => hrows x (List.mem_cons_of_mem _ hx)
    rw [List.cons_append]
    by_cases hn : n = xn
    · subst hn
      rw [bulkAux_cons_same_idx pm vals acc w n xc xv (rows' ++ rest)]
      rw [ih n (vals ++ [xv]) acc rest hrows' hrest]
      have hfl : flushSeq (some (n, vals)) (List.map pairOfQuad
            ((w, n, xc, xv) :: rows'))
          = flushSeq (some (n, vals ++ [xv])) (List.map pairOfQuad rows') := by
        simp only [List.map_cons, pairOfQuad, flushSeq]
        simp
      rw [hfl]
    · rw [bulkAux_cons_same_file_new_idx pm n vals acc w xn xc xv
            (rows' ++ rest) hn]
      rw [ih xn [xv] (outerSet acc (origOf pm w) n vals) rest hrows' hrest]
      have hfl : flushSeq (some (n, vals)) (List.map pairOfQuad
            ((w, xn, xc, xv) :: rows'))
          = (n, vals) :: flushSeq (some (xn, [xv])) (List.map pairOfQuad rows') := by
        simp only [List.map_cons, pairOfQuad, flushSeq]
        rw [if_neg (Ne.symm hn)]
      rw [hfl]
      have hdal : dalOrig pm w acc ((n, vals) :: flushSeq (some (xn, [xv]))
            (List.map pairOfQuad rows'))
          = dalOrig pm w (outerSet acc (origOf pm w) n vals)
              (flushSeq (some (xn, [xv])) (List.map pairOfQuad rows')) := rfl
      rw [hdal]

lemma bulkAux_one_block (pm : List (String × String)) (w : String)
    (B : List (String × String × ℕ × ℚ))
    (acc : List (String × List (String × List ℚ)))
    (hB : ∀ x ∈ B, x.1 = w) :
    bulkAux pm none none [] acc B = dalOrig pm w acc (flushBlock B) := by
  cases B with
  | nil => rfl
  | cons y B' =>
    obtain ⟨yw, yn, yc, yv⟩ := y
    have hyw : w = yw := (hB (yw, yn, yc, yv) (List.mem_cons_self _ _)).symm
    subst hyw
    rw [bulkAux_cons_new_file_start pm [] acc w yn yc yv B']
    have hB' : ∀ x ∈ B', x.1 = w := fun x hx => hB x (List.mem_cons_of_mem _ hx)
    have h := bulkAux_block pm w B' yn [yv] acc [] hB' (by intro y hy; simp at hy)
    rw [List.append_nil] at h
    rw [h]
    rfl

lemma bulkAux_two_blocks (pm : List (String × String)) (w₁ w₂ : String)
    (hw : w₁ ≠ w₂) (A B : List (String × String × ℕ × ℚ))
    (hA : ∀ x ∈ A, x.1 = w₁) (hB : ∀ x ∈ B, x.1 = w₂) :
    bulkAux pm none none [] [] (A ++ B)
      = dalOrig pm w₂ (dalOrig pm w₁ [] (flushBlock A)) (flushBlock B) := by
  cases A with
  | nil =>
    rw [List.nil_append, bulkAux_one_block pm w₂ B [] hB]
    rfl
  | cons x A' =>
    obtain ⟨xw, xn, xc, xv⟩ := x
    have hxw : w₁ = xw := (hA (xw, xn, xc, xv) (List.mem_cons_self _ _)).symm
    subst hxw
    rw [List.cons_append, bulkAux_cons_new_file_start pm [] [] w₁ xn xc xv (A' ++ B)]
    have hA' : ∀ x ∈ A', x.1 = w₁ := fun x hx => hA x (List.mem_cons_of_mem _ hx)
    have hhead : ∀ y, B.head? = some y → y.1 ≠ w₁ := by
      intro y hy he
      have hyB : y ∈ B := by
        cases B with
        | nil => simp at hy
        | cons b B' =>
          simp only [List.head?] at hy
          rw [← Option.some.inj hy]
          exact List.mem_cons_self b B'
      exact hw (he ▸ (hB y hyB).symm ▸ rfl)
    rw [bulkAux_block pm w₁ A' xn [xv] [] B hA' hhead]
    exact bulkAux_one_block pm w₂ B _ hB

lemma dictGetD_outerSet_same (acc : List (String × List (String × List ℚ)))
    (fp n : String) (vals : List ℚ) :
    dictGetD (outerSet acc fp n vals) fp []
      = dictSet (dictGetD acc fp []) n vals := by
  unfold outerSet dictGetD
  rw [dictGet_dictSet_same]
  rfl

lemma dictGetD_outerSet_other (acc : List (String × List (String × List ℚ)))
    (fp fp' n : String) (vals : List ℚ) (h : fp' ≠ fp) :
    dictGetD (outerSet acc fp n vals) fp' [] = dictGetD acc fp' [] := by
  unfold outerSet dictGetD
  rw [dictGet_dictSet_other _ _ _ _ h]

lemma dalOrig_lookup_same (pm : List (String × String)) (w : String) :
    ∀ (G : List (String × List ℚ)) (acc : List (String × List (String × List ℚ))),
      dictGetD (dalOrig pm w acc G) (origOf pm w) []
        = G.foldl (fun d p => dictSet d p.1 p.2) (dictGetD acc (origOf pm w) []) := by
  intro G
  induction G with
  | nil => intro acc; rfl
  | cons p G ih =>
    intro acc
    have h1 : dalOrig pm w acc (p :: G)
        = dalOrig pm w (outerSet acc (origOf pm w) p.1 p.2) G := rfl
    rw [h1, ih, List.foldl_cons, dictGetD_outerSet_same]

lemma dalOrig_lookup_other (pm : List (String × String)) (w fp : String)
    (h : fp ≠ origOf pm w) :
    ∀ (G : List (String × List ℚ)) (acc : List (String × List (String × List ℚ))),
      dictGetD (dalOrig pm w acc G) fp [] = dictGetD acc fp [] := by
  intro G
  induction G with
  | nil => intro acc; rfl
  | cons p G ih =>
    intro acc
    have h1 : dalOrig pm w acc (p :: G)
        = dalOrig pm w (outerSet acc (origOf pm w) p.1 p.2) G := rfl
    rw [h1, ih, dictGetD_outerSet_other _ _ _ _ _ h]

/-- Attach a fixed filepath column to a selected triple, as the bulk join
does for rows of one file. -/
def attachW (w : String) (t : String × ℕ × ℚ) : String × String × ℕ × ℚ :=
  (w, t.1, t.2.1, t.2.2)

lemma flushBlock_map_attach (w : String) (S : List (String × ℕ × ℚ)) :
    flushBlock (S.map (attachW w))
      = flushSeq none (S.map (fun t => (t.1, t.2.2))) := by
  cases S with
  | nil => rfl
  | cons t S' =>
    show flushSeq (some (t.1, [t.2.2])) ((S'.map (attachW w)).map pairOfQuad)
      = flushSeq (some (t.1, [t.2.2])) (S'.map (fun t => (t.1, t.2.2)))
    rw [List.map_map]
    rfl

lemma quadLe_attach (w : String) (a b : String × ℕ × ℚ) (h : tripleLe a b) :
    quadLe (attachW w a) (attachW w b) := by
  unfold quadLe quadLeB attachW
  simp only [lexLe_refl, if_pos]
  exact h

lemma quadLe_cross (w₁ w₂ : String)
    (hord : lexLe (strNatKey w₁) (strNatKey w₂) = true) (hne : w₁ ≠ w₂)
    (a b : String × ℕ × ℚ) : quadLe (attachW w₁ a) (attachW w₂ b) := by
  unfold quadLe attachW
  refine (quadLeB_iff _ _).mpr (Or.inl ⟨hord, ?_⟩)
  intro h2
  exact hne (strNatKey_inj (lexLe_antisymm _ _ hord h2))

lemma sorted_map_attach (w : String) (S : List (String × ℕ × ℚ))
    (h : S.Sorted tripleLe) : (S.map (attachW w)).Sorted quadLe :=
  List.Pairwise.map _ (fun a b hab => quadLe_attach w a b hab) h

lemma filter_key_eq_singleton {α β : Type} [DecidableEq β] (f : α → β) :
    ∀ (l : List α) (a : α), a ∈ l → (l.map f).Nodup →
      l.filter (fun x => decide (f x = f a)) = [a] := by
  intro l
  induction l with
  | nil => intro a ha; exact absurd ha (List.not_mem_nil a)
  | cons b l ih =>
    intro a ha hnd
    rw [List.map_cons, List.nodup_cons] at hnd
    rcases List.mem_cons.mp ha with hab | hal
    · subst hab
      rw [List.filter_cons_of_pos (by simp)]
      have hfe : l.filter (fun x => decide (f x = f a)) = [] := by
        rw [List.filter_eq_nil_iff]
        intro x hx
        simp only [decide_eq_true_eq]
        intro he
        exact hnd.1 (he ▸ List.mem_map.mpr ⟨x, hx, rfl⟩)
      rw [hfe]
    · have hba : ¬ f b = f a := by
        intro he
        exact hnd.1 (he ▸ List.mem_map.mpr ⟨a, hal, rfl⟩)
      rw [List.filter_cons_of_neg (by simp [hba])]
      exact ih a hal hnd.2

lemma bulkJoinRows_perm (db : DBState) (fileIds : List ℕ) (pt : String)
    (names? : Option (List String)) (i₁ i₂ : ℕ) (a₁ a₂ : AudioFileRow)
    (hc : ∀ i : ℕ, fileIds.contains i = true ↔ (i = i₁ ∨ i = i₂))
    (hne : i₁ ≠ i₂)
    (hf₁ : db.audioFiles.filter (fun a => decide (a.id = i₁)) = [a₁])
    (hf₂ : db.audioFiles.filter (fun a => decide (a.id = i₂)) = [a₂]) :
    (bulkJoinRows db fileIds pt names?).Perm
      ((db.core.filter (fun r => decide (r.file_id = i₁)
          && decide (r.processing_type = pt)
          && namesMatch names? r.index_name)).map
        (fun r => (a₁.filepath, r.index_name, r.chunk_index, r.value))
       ++ (db.core.filter (fun r => decide (r.file_id = i₂)
          && decide (r.processing_type = pt)
          && namesMatch names? r.index_name)).map
        (fun r => (a₂.filepath, r.index_name, r.chunk_index, r.value))) := by
  unfold bulkJoinRows
  induction db.core with
  | nil => exact List.Perm.refl _
  | cons r l ih =>
    rw [List.flatMap_cons, List.filter_cons, List.filter_cons]
    by_cases hp : r.processing_type = pt
    · by_cases hnm : namesMatch names? r.index_name = true
      · by_cases h1 : r.file_id = i₁
        · have hcontains : r.file_id ∈ fileIds :=
            List.elem_iff.mp ((hc r.file_id).mpr (Or.inl h1))
          rw [if_pos (by simp [hcontains, hp, hnm]),
              if_pos (by simp [h1, hp, hnm]),
              if_neg (by simp [h1, hne, hp, hnm])]
          have hg : (db.audioFiles.filter
                (fun a => decide (a.id = r.file_id))).map
                (fun a => (a.filepath, r.index_name, r.chunk_index, r.value))
              = [(a₁.filepath, r.index_name, r.chunk_index, r.value)] := by
            simp only [h1]
            rw [hf₁]
            rfl
          rw [hg, List.map_cons, List.singleton_append, List.cons_append]
          exact List.Perm.cons _ ih
        · by_cases h2 : r.file_id = i₂
          · have hcontains : r.file_id ∈ fileIds :=
              List.elem_iff.mp ((hc r.file_id).mpr (Or.inr h2))
            rw [if_pos (by simp [hcontains, hp, hnm]),
                if_neg (by simp [h1, hp, hnm]),
                if_pos (by simp [h2, hp, hnm])]
            have hg : (db.audioFiles.filter
                  (fun a => decide (a.id = r.file_id))).map
                  (fun a => (a.filepath, r.index_name, r.chunk_index, r.value))
                = [(a₂.filepath, r.index_name, r.chunk_index, r.value)] := by
              simp only [h2]
              rw [hf₂]
              rfl
            rw [hg, List.map_cons, List.singleton_append]
            exact (List.Perm.cons _ ih).trans List.perm_middle.symm
          · have hcontains : ¬ r.file_id ∈ fileIds := by
              intro hm
              rcases (hc r.file_id).mp (List.elem_iff.mpr hm) with h | h
              · exact h1 h
              · exact h2 h
            rw [if_neg (by simp [hcontains]),
                if_neg (by simp [h1]), if_neg (by simp [h2]),
                List.nil_append]
            exact ih
      · rw [if_neg (by simp [hnm]), if_neg (by simp [hnm]),
            if_neg (by simp [hnm]), List.nil_append]
        exact ih
    · rw [if_neg (by simp [hp]), if_neg (by simp [hp]),
          if_neg (by simp [hp]), List.nil_append]
      exact ih

lemma foldl_dictSet_afs :
    ∀ (l : List AudioFileRow) (acc : List (String × ℕ)),
      ((acc ++ l.map (fun a => (a.filepath, a.id))).map Prod.fst).Nodup →
      l.foldl (fun d a => dictSet d a.filepath a.id) acc
        = acc ++ l.map (fun a => (a.filepath, a.id)) := by
  intro l
  induction l with
  | nil => intro acc _; exact (List.append_nil acc).symm ▸ rfl
  | cons a l ih =>
    intro acc hnd
    have hfresh : ¬ a.filepath ∈ acc.map Prod.fst := by
      intro hin
      rw [List.map_append] at hnd
      have hd := List.disjoint_of_nodup_append hnd
      exact hd hin (by simp)
    rw [List.foldl_cons, dictSet_fresh acc a.filepath a.id hfresh]
    have hnd' : (((acc ++ [(a.filepath, a.id)])
        ++ l.map (fun a => (a.filepath, a.id))).map Prod.fst).Nodup := by
      rw [List.append_assoc, List.singleton_append]
      simpa using hnd
    rw [ih (acc ++ [(a.filepath, a.id)]) hnd', List.append_assoc,
        List.singleton_append]
    simp

lemma bulkFileIdDict_eq (afs : List AudioFileRow) (ws : List String)
    (hnd : (afs.map (fun a => a.filepath)).Nodup) :
    bulkFileIdDict afs ws
      = (afs.filter (fun a => ws.contains a.filepath)).map
          (fun a => (a.filepath, a.id)) := by
  unfold bulkFileIdDict
  rw [foldl_dictSet_afs _ [] (by
    rw [List.nil_append, List.map_map]
    exact ((List.filter_sublist afs).map (fun a => a.filepath)).nodup hnd)]
  rw [List.nil_append]

lemma attachW_fst (w : String) (S : List (String × ℕ × ℚ)) :
    ∀ x ∈ S.map (attachW w), x.1 = w := by
  intro x hx
  rcases List.mem_map.mp hx with ⟨a, _, rfl⟩
  rfl

lemma map_attach_triple (w : String) (T : List CoreRow) :
    T.map (fun r => (w, r.index_name, r.chunk_index, r.value))
      = (T.map (fun r => (r.index_name, r.chunk_index, r.value))).map
          (attachW w) := by
  rw [List.map_map]
  rfl

lemma core_filter_nc_nodup (core : List CoreRow)
    (h : (core.map rowKey).Nodup) (p : CoreRow → Bool) (i : ℕ)
    (hp : ∀ r, p r = true → r.file_id = i) :
    ((core.filter p).map (fun r => (r.index_name, r.chunk_index))).Nodup := by
  have hsub : (core.filter p).Sublist core := List.filter_sublist core
  have hnd : ((core.filter p).map rowKey).Nodup := (hsub.map rowKey).nodup h
  have hkey : ∀ k ∈ (core.filter p).map rowKey, k.1 = i := by
    intro k hk
    rcases List.mem_map.mp hk with ⟨r, hr, hrk⟩
    rw [← hrk]
    exact hp r (by simpa using (List.mem_filter.mp hr).2)
  have h2 : (((core.filter p).map rowKey).map Prod.snd).Nodup := by
    apply List.Nodup.map_on ?_ hnd
    intro x hx y hy hxy
    have e1 := hkey x hx
    have e2 := hkey y hy
    exact Prod.ext (e1.trans e2.symm) hxy
  rw [List.map_map] at h2
  exact h2

lemma sorted_triple_key_nodup (T : List CoreRow)
    (h : (T.map (fun r => (r.index_name, r.chunk_index))).Nodup) :
    (((T.map (fun r => (r.index_name, r.chunk_index, r.value))).insertionSort
        tripleLe).map (fun t => (t.1, t.2.1))).Nodup := by
  have hp : ((T.map (fun r => (r.index_name, r.chunk_index, r.value))).insertionSort
        tripleLe).Perm (T.map (fun r => (r.index_name, r.chunk_index, r.value))) :=
    List.perm_insertionSort _ _
  have hp2 := hp.map (fun t : String × ℕ × ℚ => (t.1, t.2.1))
  apply hp2.nodup_iff.mpr
  rw [List.map_map]
  exact h

lemma nodup_attach_keys (w : String) (S : List (String × ℕ × ℚ))
    (h : (S.map (fun t => (t.1, t.2.1))).Nodup) :
    ((S.map (attachW w)).map quadKey).Nodup := by
  rw [List.map_map]
  have he : S.map (quadKey ∘ attachW w)
      = (S.map (fun t => (t.1, t.2.1))).map (fun k => (w, k)) := by
    rw [List.map_map]
    rfl
  rw [he]
  exact h.map (fun a b hab => by simpa using hab)

lemma nodup_quad_append (w₁ w₂ : String) (hne : w₁ ≠ w₂)
    (A₁ A₂ : List (String × String × ℕ × ℚ))
    (h1 : (A₁.map quadKey).Nodup) (h2 : (A₂.map quadKey).Nodup)
    (hw1 : ∀ x ∈ A₁, x.1 = w₁) (hw2 : ∀ x ∈ A₂, x.1 = w₂) :
    ((A₁ ++ A₂).map quadKey).Nodup := by
  rw [List.map_append, List.nodup_append]
  refine ⟨h1, h2, ?_⟩
  intro k hk1 hk2
  rcases List.mem_map.mp hk1 with ⟨x, hx, hxk⟩
  rcases List.mem_map.mp hk2 with ⟨y, hy, hyk⟩
  have e1 : k.1 = w₁ := by
    rw [← hxk]
    exact hw1 x hx
  have e2 : k.1 = w₂ := by
    rw [← hyk]
    exact hw2 y hy
  exact hne (e1.symm.trans e2)

lemma sorted_attach_append (w₁ w₂ : String)
    (hord : lexLe (strNatKey w₁) (strNatKey w₂) = true) (hne : w₁ ≠ w₂)
    (S₁ S₂ : List (String × ℕ × ℚ))
    (h1 : S₁.Sorted tripleLe) (h2 : S₂.Sorted tripleLe) :
    ((S₁.map (attachW w₁)) ++ (S₂.map (attachW w₂))).Sorted quadLe := by
  show List.Pairwise quadLe _
  rw [List.pairwise_append]
  refine ⟨sorted_map_attach w₁ S₁ h1, sorted_map_attach w₂ S₂ h2, ?_⟩
  intro x hx y hy
  rcases List.mem_map.mp hx with ⟨a, _, rfl⟩
  rcases List.mem_map.mp hy with ⟨b, _, rfl⟩
  exact quadLe_cross w₁ w₂ hord hne a b

lemma get_indices_for_file_eq (db : DBState) (f pt : String)
    (names? : Option (List String)) (fid : ℕ) (hpt : pt ≠ "")
    (hlk : getFileId db.audioFiles (toWavPath pt f) = some fid)
    (hfid : fid ≠ 0) :
    get_indices_for_file db f (some pt) names?
      = groupSingle ((((db.core.filter (fun r =>
            decide (r.file_id = fid) && decide (r.processing_type = pt)
              && namesMatch names? r.index_name)).map
          (fun r => (r.index_name, r.chunk_index, r.value))).insertionSort
            tripleLe).map (fun t => (t.1, t.2.2))) := by
  unfold get_indices_for_file
  dsimp only
  rw [hlk]
  dsimp only
  rw [if_neg hfid]
  have hfc : db.core.filter (fun r =>
        decide (r.file_id = fid) && ptMatch (some pt) r
          && namesMatch names? r.index_name)
      = db.core.filter (fun r =>
        decide (r.file_id = fid) && decide (r.processing_type = pt)
          && namesMatch names? r.index_name) := by
    apply List.filter_congr
    intro r _
    simp [ptMatch, hpt]
  rw [hfc]


/-- C6 (amended): the bulk retrieval agrees with two single-file calls on a
well-formed store: audio rows with distinct ids, distinct filepaths and
nonzero ids, core rows with distinct `(file_id, index_name, chunk_index)`
keys, a nonempty processing type, a stored row under the exact WAV path of
each queried file, and a single-file id lookup that resolves each path to
that row's id. Under those hypotheses `get_indices_for_files_bulk` returns,
for each of the two files, exactly the mapping `get_indices_for_file`
returns. -/
theorem bulk_single_equivalence (db : DBState) (f₁ f₂ pt : String)
    (names? : Option (List String)) (a₁ a₂ : AudioFileRow)
    (h_nd_id : (db.audioFiles.map (fun a => a.id)).Nodup)
    (h_nd_fp : (db.audioFiles.map (fun a => a.filepath)).Nodup)
    (h_nd_core : (db.core.map rowKey).Nodup)
    (h_id_pos : ∀ a ∈ db.audioFiles, a.id ≠ 0)
    (h_pt : pt ≠ "")
    (h_a₁ : a₁ ∈ db.audioFiles) (h_a₂ : a₂ ∈ db.audioFiles)
    (h_w₁ : a₁.filepath = toWavPath pt f₁)
    (h_w₂ : a₂.filepath = toWavPath pt f₂)
    (h_wne : toWavPath pt f₁ ≠ toWavPath pt f₂)
    (h_lk₁ : getFileId db.audioFiles (toWavPath pt f₁) = some a₁.id)
    (h_lk₂ : getFileId db.audioFiles (toWavPath pt f₂) = some a₂.id) :
    ∀ f ∈ [f₁, f₂],
      bulkGet (get_indices_for_files_bulk db [f₁, f₂] pt names?) f
        = get_indices_for_file db f (some pt) names? := by
  -- abbreviations
  set w₁ := toWavPath pt f₁ with hw₁def
  set w₂ := toWavPath pt f₂ with hw₂def
  -- basic distinctness
  have hff : f₁ ≠ f₂ := by
    intro he
    exact h_wne (by rw [hw₁def, hw₂def, he])
  have ha12 : a₁ ≠ a₂ := fun he => h_wne (h_w₁ ▸ h_w₂ ▸ he ▸ rfl)
  have hid : a₁.id ≠ a₂.id :=
    fun he => ha12 (List.inj_on_of_nodup_map h_nd_id h_a₁ h_a₂ he)
  -- path mapping
  have hpm : pathMapping pt [f₁, f₂] = [(w₁, f₁), (w₂, f₂)] := by
    unfold pathMapping
    rw [List.foldl_cons, List.foldl_cons, List.foldl_nil]
    rw [dictSet_fresh [] w₁ f₁ (by simp), List.nil_append]
    rw [dictSet_fresh [(w₁, f₁)] w₂ f₂ (by simp [Ne.symm h_wne])]
    rfl
  have horig₁ : origOf (pathMapping pt [f₁, f₂]) w₁ = f₁ := by
    rw [hpm]
    unfold origOf dictGetD dictGet?
    rw [List.find?_cons_of_pos _ (by simp)]
    rfl
  have horig₂ : origOf (pathMapping pt [f₁, f₂]) w₂ = f₂ := by
    rw [hpm]
    unfold origOf dictGetD dictGet?
    rw [List.find?_cons_of_neg _ (by simp [h_wne]),
        List.find?_cons_of_pos _ (by simp)]
    rfl
  -- the filtered audio rows for the bulk id dict
  have hfiltchar : ∀ a ∈ db.audioFiles,
      ([w₁, w₂].contains a.filepath = true ↔ (a = a₁ ∨ a = a₂)) := by
    intro a ha
    constructor
    · intro hc
      have hmem : a.filepath ∈ [w₁, w₂] := List.elem_iff.mp hc
      rcases List.mem_cons.mp hmem with h | h
      · exact Or.inl (List.inj_on_of_nodup_map h_nd_fp ha h_a₁ (h.trans h_w₁.symm))
      · have h : a.filepath = w₂ := by simpa using h
        exact Or.inr (List.inj_on_of_nodup_map h_nd_fp ha h_a₂ (h.trans h_w₂.symm))
    · intro hc
      rcases hc with h | h
      · subst h
        rw [h_w₁]
        exact List.elem_iff.mpr (by simp)
      · subst h
        rw [h_w₂]
        exact List.elem_iff.mpr (by simp)
  have hdict : bulkFileIdDict db.audioFiles [w₁, w₂]
      = (db.audioFiles.filter (fun a => [w₁, w₂].contains a.filepath)).map
          (fun a => (a.filepath, a.id)) :=
    bulkFileIdDict_eq db.audioFiles [w₁, w₂] h_nd_fp
  have ha₁filt : a₁ ∈ db.audioFiles.filter (fun a => [w₁, w₂].contains a.filepath) :=
    List.mem_filter.mpr ⟨h_a₁, (hfiltchar a₁ h_a₁).mpr (Or.inl rfl)⟩
  have hdictne : ¬ (bulkFileIdDict db.audioFiles [w₁, w₂]).isEmpty = true := by
    rw [hdict, List.isEmpty_iff]
    intro he
    rw [List.map_eq_nil_iff] at he
    rw [he] at ha₁filt
    exact List.not_mem_nil _ ha₁filt
  have hIds : ∀ i : ℕ,
      ((bulkFileIdDict db.audioFiles [w₁, w₂]).map (fun p => p.2)).contains i = true
        ↔ (i = a₁.id ∨ i = a₂.id) := by
    intro i
    rw [hdict, List.map_map]
    constructor
    · intro hc
      rcases List.mem_map.mp (List.elem_iff.mp hc) with ⟨a, ha, hai⟩
      have haf := List.mem_filter.mp ha
      rcases (hfiltchar a haf.1).mp haf.2 with h | h
      · exact Or.inl (by rw [← hai, h]; rfl)
      · exact Or.inr (by rw [← hai, h]; rfl)
    · intro hc
      apply List.elem_iff.mpr
      rcases hc with h | h
      · exact List.mem_map.mpr ⟨a₁, ha₁filt, by subst h; rfl⟩
      · refine List.mem_map.mpr ⟨a₂, ?_, by subst h; rfl⟩
        exact List.mem_filter.mpr ⟨h_a₂, (hfiltchar a₂ h_a₂).mpr (Or.inr rfl)⟩
  -- abbreviate the path mapping
  set pm := pathMapping pt [f₁, f₂] with hpmdef
  -- singleton filters for the join
  have hf₁s : db.audioFiles.filter (fun a => decide (a.id = a₁.id)) = [a₁] :=
    filter_key_eq_singleton (fun a => a.id) db.audioFiles a₁ h_a₁ h_nd_id
  have hf₂s : db.audioFiles.filter (fun a => decide (a.id = a₂.id)) = [a₂] :=
    filter_key_eq_singleton (fun a => a.id) db.audioFiles a₂ h_a₂ h_nd_id
  -- join rows split per file
  have hperm0 := bulkJoinRows_perm db
      ((bulkFileIdDict db.audioFiles [w₁, w₂]).map (fun p => p.2)) pt names?
      a₁.id a₂.id a₁ a₂ hIds hid hf₁s hf₂s
  rw [h_w₁, h_w₂, map_attach_triple w₁, map_attach_triple w₂] at hperm0
  set T₁ := db.core.filter (fun r => decide (r.file_id = a₁.id)
      && decide (r.processing_type = pt)
      && namesMatch names? r.index_name) with hT₁def
  set T₂ := db.core.filter (fun r => decide (r.file_id = a₂.id)
      && decide (r.processing_type = pt)
      && namesMatch names? r.index_name) with hT₂def
  set S₁ := (T₁.map (fun r => (r.index_name, r.chunk_index, r.value))).insertionSort
      tripleLe with hS₁def
  set S₂ := (T₂.map (fun r => (r.index_name, r.chunk_index, r.value))).insertionSort
      tripleLe with hS₂def
  set A₁ := S₁.map (attachW w₁) with hA₁def
  set A₂ := S₂.map (attachW w₂) with hA₂def
  set J := (bulkJoinRows db ((bulkFileIdDict db.audioFiles [w₁, w₂]).map
      (fun p => p.2)) pt names?).insertionSort quadLe with hJdef
  have hJperm : J.Perm (A₁ ++ A₂) := by
    refine (List.perm_insertionSort quadLe _).trans (hperm0.trans ?_)
    exact List.Perm.append
      (((List.perm_insertionSort tripleLe _).symm).map (attachW w₁))
      (((List.perm_insertionSort tripleLe _).symm).map (attachW w₂))
  have hsortS₁ : S₁.Sorted tripleLe := List.sorted_insertionSort tripleLe _
  have hsortS₂ : S₂.Sorted tripleLe := List.sorted_insertionSort tripleLe _
  have hndB₁ : (S₁.map (fun t => (t.1, t.2.1))).Nodup :=
    sorted_triple_key_nodup T₁ (by
      rw [hT₁def]
      exact core_filter_nc_nodup db.core h_nd_core _ a₁.id
        (fun r hr => by
          simp only [Bool.and_eq_true, decide_eq_true_eq] at hr
          exact hr.1.1))
  have hndB₂ : (S₂.map (fun t => (t.1, t.2.1))).Nodup :=
    sorted_triple_key_nodup T₂ (by
      rw [hT₂def]
      exact core_filter_nc_nodup db.core h_nd_core _ a₂.id
        (fun r hr => by
          simp only [Bool.and_eq_true, decide_eq_true_eq] at hr
          exact hr.1.1))
  have hndA : ((A₁ ++ A₂).map quadKey).Nodup :=
    nodup_quad_append w₁ w₂ h_wne A₁ A₂
      (nodup_attach_keys w₁ S₁ hndB₁) (nodup_attach_keys w₂ S₂ hndB₂)
      (attachW_fst w₁ S₁) (attachW_fst w₂ S₂)
  have hndJ : (J.map quadKey).Nodup := (hJperm.map quadKey).nodup_iff.mpr hndA
  have hsortJ : J.Sorted quadLe := List.sorted_insertionSort quadLe _
  -- the single-file results
  have hsingle₁ : get_indices_for_file db f₁ (some pt) names?
      = groupSingle (S₁.map (fun t => (t.1, t.2.2))) := by
    rw [get_indices_for_file_eq db f₁ pt names? a₁.id h_pt (hw₁def ▸ h_lk₁)
      (h_id_pos a₁ h_a₁), ← hT₁def, ← hS₁def]
  have hsingle₂ : get_indices_for_file db f₂ (some pt) names?
      = groupSingle (S₂.map (fun t => (t.1, t.2.2))) := by
    rw [get_indices_for_file_eq db f₂ pt names? a₂.id h_pt (hw₂def ▸ h_lk₂)
      (h_id_pos a₂ h_a₂), ← hT₂def, ← hS₂def]
  -- the bulk run, reduced to the grouping machine
  have hwmap : [f₁, f₂].map (toWavPath pt) = [w₁, w₂] := by
    rw [List.map_cons, List.map_cons, List.map_nil, ← hw₁def, ← hw₂def]
  have hbulk : get_indices_for_files_bulk db [f₁, f₂] pt names?
      = bulkAux pm none none [] [] J := by
    unfold get_indices_for_files_bulk
    rw [if_neg (by simp), hwmap, if_neg hdictne, ← hpmdef, hJdef]
  intro f hf
  rcases lexLe_total (strNatKey w₁) (strNatKey w₂) with hord | hord
  · -- w₁ sorts before w₂
    have hJ : J = A₁ ++ A₂ :=
      sorted_perm_eq_of_nodup_keys quadKey quadLe quadLeB_key_eq J (A₁ ++ A₂)
        hJperm hsortJ
        (sorted_attach_append w₁ w₂ hord h_wne S₁ S₂ hsortS₁ hsortS₂) hndJ
    have hval : bulkAux pm none none [] [] J
        = dalOrig pm w₂ (dalOrig pm w₁ [] (flushBlock A₁)) (flushBlock A₂) := by
      rw [hJ]
      exact bulkAux_two_blocks pm w₁ w₂ h_wne A₁ A₂
        (attachW_fst w₁ S₁) (attachW_fst w₂ S₂)
    rcases List.mem_cons.mp hf with heq | hf2
    · rw [heq, hbulk, hval]
      unfold bulkGet
      rw [hsingle₁]
      rw [dalOrig_lookup_other pm w₂ f₁ (by rw [horig₂]; exact hff)]
      rw [← horig₁]
      rw [dalOrig_lookup_same pm w₁]
      rw [hA₁def, flushBlock_map_attach w₁ S₁]
      rfl
    · have hf2e : f = f₂ := by simpa using hf2
      rw [hf2e, hbulk, hval]
      unfold bulkGet
      rw [hsingle₂]
      rw [← horig₂]
      rw [dalOrig_lookup_same pm w₂]
      rw [dalOrig_lookup_other pm w₁ (origOf pm w₂)
        (by rw [horig₂, horig₁]; exact Ne.symm hff)]
      rw [hA₂def, flushBlock_map_attach w₂ S₂]
      rfl
  · -- w₂ sorts before w₁
    have hJ : J = A₂ ++ A₁ :=
      sorted_perm_eq_of_nodup_keys quadKey quadLe quadLeB_key_eq J (A₂ ++ A₁)
        (hJperm.trans List.perm_append_comm) hsortJ
        (sorted_attach_append w₂ w₁ hord (Ne.symm h_wne) S₂ S₁ hsortS₂ hsortS₁)
        hndJ
    have hval : bulkAux pm none none [] [] J
        = dalOrig pm w₁ (dalOrig pm w₂ [] (flushBlock A₂)) (flushBlock A₁) := by
      rw [hJ]
      exact bulkAux_two_blocks pm w₂ w₁ (Ne.symm h_wne) A₂ A₁
        (attachW_fst w₂ S₂) (attachW_fst w₁ S₁)
    rcases List.mem_cons.mp hf with heq | hf2
    · rw [heq, hbulk, hval]
      unfold bulkGet
      rw [hsingle₁]
      rw [← horig₁]
      rw [dalOrig_lookup_same pm w₁]
      rw [dalOrig_lookup_other pm w₂ (origOf pm w₁)
        (by rw [horig₁, horig₂]; exact hff)]
      rw [hA₁def, flushBlock_map_attach w₁ S₁]
      rfl
    · have hf2e : f = f₂ := by simpa using hf2
      rw [hf2e, hbulk, hval]
      unfold bulkGet
      rw [hsingle₂]
      rw [dalOrig_lookup_other pm w₁ f₂ (by rw [horig₁]; exact Ne.symm hff)]
      rw [← horig₂]
      rw [dalOrig_lookup_same pm w₂]
      rw [hA₂def, flushBlock_map_attach w₂ S₂]
      rfl

/-- A store with two audio rows sharing the basename `F.WAV` under different
directories: the single-file call resolves file ids by basename
(`WHERE filename = ?`, first row wins), the bulk call by exact filepath. -/
def basenameCollisionDB : DBState :=
  { audioFiles := [
      { id := 1, filepath := "/a/F.WAV", filename := "F.WAV",
        processing_status := "" },
      { id := 2, filepath := "/b/F.WAV", filename := "F.WAV",
        processing_status := "" }],
    core := [
      { file_id := 1, index_name := "aci", chunk_index := 0,
        start_time_sec := 0, value := 10, processing_type := "temporal" },
      { file_id := 2, index_name := "aci", chunk_index := 0,
        start_time_sec := 0, value := 20, processing_type := "temporal" }],
    configs := [] }

/-- C6 counterexample: both files are present in the store, yet the bulk
result for `/b/F.WAV` (its own row, value 20) differs from the single-file
call, whose basename lookup `WHERE filename = ?` resolves `F.WAV` to the
first matching row `/a/F.WAV` and returns that file's value 10. -/
theorem bulk_single_counterexample :
    bulkGet (get_indices_for_files_bulk basenameCollisionDB
        ["/a/F.WAV", "/b/F.WAV"] "temporal" none) "/b/F.WAV"
      ≠ get_indices_for_file basenameCollisionDB "/b/F.WAV"
          (some "temporal") none := by
  decide

/-- A well-formed store for the amended equivalence: distinct basenames, so
the single-file lookup resolves each exact path to its own row. -/
def bulkWitnessDB : DBState :=
  { audioFiles := [
      { id := 1, filepath := "/a/F1.WAV", filename := "F1.WAV",
        processing_status := "" },
      { id := 2, filepath := "/a/F2.WAV", filename := "F2.WAV",
        processing_status := "" }],
    core := [
      { file_id := 2, index_name := "bcd", chunk_index := 1,
        start_time_sec := 5, value := 21, processing_type := "temporal" },
      { file_id := 1, index_name := "aci", chunk_index := 0,
        start_time_sec := 0, value := 10, processing_type := "temporal" },
      { file_id := 1, index_name := "aci", chunk_index := 1,
        start_time_sec := 5, value := 11, processing_type := "temporal" },
      { file_id := 2, index_name := "aci", chunk_index := 0,
        start_time_sec := 0, value := 20, processing_type := "temporal" },
      { file_id := 2, index_name := "bcd", chunk_index := 0,
        start_time_sec := 0, value := 22, processing_type := "temporal" }],
    configs := [] }

/-- The amended C6 theorem applied to a concrete well-formed store. -/
theorem bulk_single_equivalence_witness :
    bulkGet (get_indices_for_files_bulk bulkWitnessDB
        ["/a/F1.WAV", "/a/F2.WAV"] "temporal" none) "/a/F1.WAV"
      = get_indices_for_file bulkWitnessDB "/a/F1.WAV" (some "temporal") none :=
  bulk_single_equivalence bulkWitnessDB "/a/F1.WAV" "/a/F2.WAV" "temporal" none
    { id := 1, filepath := "/a/F1.WAV", filename := "F1.WAV",
      processing_status := "" }
    { id := 2, filepath := "/a/F2.WAV", filename := "F2.WAV",
      processing_status := "" }
    (by decide) (by decide) (by decide) (by decide) (by decide)
    (by decide) (by decide) (by decide) (by decide) (by decide)
    (by decide) (by decide) "/a/F1.WAV" (by decide)

/-! ## C5: per-chunk value coercion -/

/-- The Python values a per-chunk feature routine can return: a numeric
(`int`/`float`/`np.number`, carrying a finiteness flag so NaN/inf are
representable), a tuple, or a non-numeric object that `float()` cannot
convert. -/
inductive PyVal where
  | num (isFinite : Bool) (val : ℚ)
  | tup (elems : List PyVal)
  | obj (tag : String)

/-- `isinstance(value, (int, float, np.number))`. -/
def isNumB : PyVal → Bool
  | PyVal.num _ _ => true
  | _ => false

/-- Python `float(value)`: numerics convert (preserving non-finiteness),
tuples and non-convertible objects raise `TypeError`. -/
def pyFloat : PyVal → Except String (Bool × ℚ)
  | PyVal.num f v => Except.ok (f, v)
  | PyVal.tup _ => Except.error "TypeError"
  | PyVal.obj _ => Except.error "TypeError"

/-- The spectral named-index append (spectral_processor.py lines 216-223):
non-numeric tuples contribute `value[0]`, other non-numerics become `0.0`,
then `float(value)` is applied; an empty tuple raises `IndexError` at
`value[0]`. -/
def spectralAppend (value : PyVal) : Except String (Bool × ℚ) :=
  if isNumB value then pyFloat value
  else
    match value with
    | PyVal.tup [] => Except.error "IndexError"
    | PyVal.tup (e :: _) => pyFloat e
    | _ => pyFloat (PyVal.num true 0)

/-- The temporal legacy append (temporal_processor.py lines 178-181):
`values.append(float(value))` with no coercion of any kind. -/
def temporalAppend (value : PyVal) : Except String (Bool × ℚ) :=
  pyFloat value

/-- The spec's words: non-finite or non-numeric results are coerced to the
fallback 0.0 (a tuple to its selected first element), never a non-finite
value, and the append never fails. -/
def specChunkValue : PyVal → Bool × ℚ
  | PyVal.num true q => (true, q)
  | PyVal.tup (PyVal.num true q :: _) => (true, q)
  | _ => (true, 0)

/-- C5 counterexample: a non-finite numeric chunk value (NaN/inf) passes the
`isinstance` check untouched, so the appended value is non-finite rather
than the 0.0 fallback the spec requires; and the temporal path has no
coercion at all: a non-numeric result makes `float()` raise, aborting the
file's processing. -/
theorem chunk_value_coercion_counterexample :
    spectralAppend (PyVal.num false 0)
        ≠ Except.ok (specChunkValue (PyVal.num false 0))
    ∧ ∀ r : Bool × ℚ, temporalAppend (PyVal.obj "no_float") ≠ Except.ok r := by
  constructor
  · intro h
    have h2 := Except.ok.inj h
    simp [specChunkValue] at h2
  · intro r h
    exact nomatch h

/-- C5 (amended): in the spectral named-index path a finite numeric result
is appended unchanged; any numeric result — finite or not — passes through
the `isinstance` check untouched, so non-finite values propagate; a tuple
contributes its first element through `float()`; only a non-numeric,
non-tuple result is coerced to the finite fallback 0.0. The temporal legacy
path applies no coercion: for such a result `float()` raises and the file's
processing aborts. -/
theorem chunk_value_coercion_amended (v : PyVal) :
    (∀ q : ℚ, v = PyVal.num true q →
      spectralAppend v = Except.ok (true, q)
        ∧ temporalAppend v = Except.ok (true, q))
    ∧ (∀ (f : Bool) (q : ℚ), v = PyVal.num f q →
        spectralAppend v = Except.ok (f, q))
    ∧ (∀ e l, v = PyVal.tup (e :: l) → spectralAppend v = pyFloat e)
    ∧ ((∀ f q, v ≠ PyVal.num f q) → (∀ l, v ≠ PyVal.tup l) →
        spectralAppend v = Except.ok (true, 0)
          ∧ ∀ r : Bool × ℚ, temporalAppend v ≠ Except.ok r) := by
  refine ⟨?_, ?_, ?_, ?_⟩
  · intro q h
    subst h
    exact ⟨rfl, rfl⟩
  · intro f q h
    subst h
    rfl
  · intro e l h
    subst h
    rfl
  · intro hn ht
    cases v with
    | num f q => exact absurd rfl (hn f q)
    | tup l => exact absurd rfl (ht l)
    | obj s =>
      refine ⟨rfl, ?_⟩
      intro r h
      exact nomatch h

/-- The amended C5 theorem applied to a concrete finite numeric value. -/
theorem chunk_value_coercion_amended_witness :
    spectralAppend (PyVal.num true 3) = Except.ok (true, 3)
    ∧ temporalAppend (PyVal.num true 3) = Except.ok (true, 3) :=
  (chunk_value_coercion_amended (PyVal.num true 3)).1 3 rfl
